import Mathlib

set_option maxHeartbeats 1000000

/-!
Verification development for the text-to-structured-data pipeline of the
produkt_chatbot frontend (src/frontend/app.js): the markup renderer
(markdownToHTML), the specification normalizer (extractAllTechnicalSpecs)
and the comparison-narrative structurer (extractStructuredComparison).

The JavaScript is shallowly embedded: JavaScript values are modelled by the
inductive `JVal` (numbers as integers: every number exercised here is an
integer and renders via its decimal representation), objects are association
lists (a real JS object corresponds to a list with pairwise distinct keys),
and code that can raise a TypeError returns `Except String`.
-/

namespace PChat

/-- JSON-like JavaScript values.  `jnull` stands for both `null` and
`undefined` except where the source distinguishes them (property absence is
`Option.none` of `jsGet`). -/
inductive JVal where
  | jnull
  | jbool (b : Bool)
  | jnum (n : Int)
  | jstr (s : String)
  | jarr (elems : List JVal)
  | jobj (fields : List (String × JVal))

instance : Inhabited JVal := ⟨.jnull⟩

/-- Is the value exactly `null`/`undefined`? -/
def isNull : JVal → Bool
  | .jnull => true
  | _ => false

/-- The `value === null || value === undefined || value === \'\'` test of the
field extractor (app.js 286). -/
def isNullOrEmptyStr : JVal → Bool
  | .jnull => true
  | .jstr s => s.isEmpty
  | _ => false

/-- `pat` is a prefix of `s` (`String.prototype.startsWith`). -/
def strStarts (s pat : String) : Bool := pat.data.isPrefixOf s.data

/-- `pat` is a suffix of `s` (`String.prototype.endsWith`). -/
def strEnds (s pat : String) : Bool := pat.data.isSuffixOf s.data

/-- JavaScript truthiness: `false`, `0`, `''`, `null`/`undefined` are falsy;
arrays and objects are always truthy. -/
def jsFalsy : JVal → Bool
  | .jnull => true
  | .jbool b => !b
  | .jnum n => n == 0
  | .jstr s => s.data.isEmpty
  | .jarr _ => false
  | .jobj _ => false

def jsTruthy (v : JVal) : Bool := !jsFalsy v

/-- Property access on a non-null value (`v.k`); `none` models `undefined`.
Arrays and strings expose `length`. -/
def jsGet : JVal → String → Option JVal
  | .jobj fs, k => (fs.find? (fun p => p.1 == k)).map (·.2)
  | .jarr xs, k => if k == "length" then some (.jnum xs.length) else none
  | .jstr s, k => if k == "length" then some (.jnum s.length) else none
  | _, _ => none

/-- Property access collapsing `undefined` to `jnull`. -/
def jsGetD (v : JVal) (k : String) : JVal := (jsGet v k).getD .jnull

/-- JavaScript `a || b`. -/
def jsOr (a b : JVal) : JVal := if jsTruthy a then a else b

/-- `Object.entries`: object fields, or index/value pairs for arrays. -/
def jsEntries : JVal → List (String × JVal)
  | .jobj fs => fs
  | .jarr xs => (xs.enum).map (fun p => (toString p.1, p.2))
  | _ => []

/-- `Object.keys`. -/
def jsKeys (v : JVal) : List String := (jsEntries v).map (·.1)

/-- Characters of JavaScript `\s` restricted to ASCII (the inputs in scope
contain no exotic Unicode whitespace). -/
def isWSChar (c : Char) : Bool :=
  c == ' ' || c == '\t' || c == '\n' || c == '\r' || c == '\x0b' || c == '\x0c'

def trimLeftL (cs : List Char) : List Char := cs.dropWhile isWSChar

def trimL (cs : List Char) : List Char :=
  ((trimLeftL cs).reverse.dropWhile isWSChar).reverse

/-- JavaScript `String.prototype.trim`. -/
def jsTrim (s : String) : String := ⟨trimL s.data⟩

/-- `ToNumber` on the fragment of values the source compares numerically.
Strings are parsed only when they are plain decimal integers; other strings,
arrays and objects are treated as NaN (`none`), which makes every `>`
comparison false.  (No claim exercises numeric coercion of arrays/objects.) -/
def jsToNumber : JVal → Option Int
  | .jnull => some 0
  | .jbool b => some (if b then 1 else 0)
  | .jnum n => some n
  | .jstr s =>
      let t := (jsTrim s).data
      if t.isEmpty then some 0
      else if t.all Char.isDigit then
        some (t.foldl (fun acc c => acc * 10 + (c.toNat - 48)) (0 : Int))
      else none
  | .jarr _ => none
  | .jobj _ => none

/-- JavaScript `v > 0` (false when `v` coerces to NaN). -/
def jsGtZero (v : JVal) : Bool :=
  match jsToNumber v with
  | some n => 0 < n
  | none => false

/-- `toLowerCase` for the alphabet of this program: ASCII letters and the
German uppercase umlauts. -/
def jsLowerChar (c : Char) : Char :=
  if 'A' ≤ c && c ≤ 'Z' then Char.ofNat (c.toNat + 32)
  else if c = 'Ä' then 'ä'
  else if c = 'Ö' then 'ö'
  else if c = 'Ü' then 'ü'
  else c

def jsToLower (s : String) : String := ⟨s.data.map jsLowerChar⟩

def jsUpperChar (c : Char) : Char :=
  if 'a' ≤ c && c ≤ 'z' then Char.ofNat (c.toNat - 32)
  else if c = 'ä' then 'Ä'
  else if c = 'ö' then 'Ö'
  else if c = 'ü' then 'Ü'
  else c

/-- `s.replace(/^./, c => c.toUpperCase())`: uppercase the first character
(`.` does not match a leading newline; `ß` uppercases to `SS`). -/
def jsUpperFirst (s : String) : String :=
  match s.data with
  | [] => s
  | c :: rest =>
      if c = '\n' then s
      else if c = 'ß' then ⟨'S' :: 'S' :: rest⟩
      else ⟨jsUpperChar c :: rest⟩

/-- `String.prototype.includes` on character lists. -/
def hasSubL (pat : List Char) : List Char → Bool
  | [] => pat.isEmpty
  | c :: rest => pat.isPrefixOf (c :: rest) || hasSubL pat rest

/-- `String.prototype.includes`. -/
def hasSub (s pat : String) : Bool := hasSubL pat.data s.data

/-- `s.replace(/_/g, ' ')`. -/
def underToSpace (s : String) : String :=
  ⟨s.data.map (fun c => if c = '_' then ' ' else c)⟩

mutual

/-- `String(v)`.  Arrays stringify as the comma join of their elements with
`null`/`undefined` rendering empty; objects as `"[object Object]"`. -/
def jsToString : JVal → String
  | .jnull => "null"
  | .jbool b => if b then "true" else "false"
  | .jnum n => toString n
  | .jstr s => s
  | .jarr xs => String.intercalate "," (jsToStringElems xs)
  | .jobj _ => "[object Object]"

def jsToStringElems : List JVal → List String
  | [] => []
  | .jnull :: xs => "" :: jsToStringElems xs
  | x :: xs => jsToString x :: jsToStringElems xs

end

/-- JSON escaping of a string: only `"` and `\` are escaped (no claim
exercises control-character escapes). -/
def jsonEscape (s : String) : String :=
  "\"" ++ ⟨s.data.flatMap (fun c =>
    if c = '"' then ['\\', '"'] else if c = '\\' then ['\\', '\\'] else [c])⟩ ++ "\""

mutual

/-- `JSON.stringify` on cycle-free values. -/
def jsonStringify : JVal → String
  | .jnull => "null"
  | .jbool b => if b then "true" else "false"
  | .jnum n => toString n
  | .jstr s => jsonEscape s
  | .jarr xs => "[" ++ String.intercalate "," (jsonStringifyElems xs) ++ "]"
  | .jobj fs => "\x7b" ++ String.intercalate "," (jsonStringifyFields fs) ++ "\x7d"

def jsonStringifyElems : List JVal → List String
  | [] => []
  | x :: xs => jsonStringify x :: jsonStringifyElems xs

def jsonStringifyFields : List (String × JVal) → List String
  | [] => []
  | f :: fs => (jsonEscape f.1 ++ ":" ++ jsonStringify f.2) :: jsonStringifyFields fs

end

/-- `Array.prototype.join(', ')`: elements via `String(...)` except
`null`/`undefined`, which render empty. -/
def jsJoinCommaSpace (xs : List JVal) : String :=
  String.intercalate ", "
    (xs.map (fun x => match x with | .jnull => "" | v => jsToString v))

/-! ## Specification normalizer (`extractAllTechnicalSpecs`, app.js 246-827)

The JS function only ever mutates its local `specs`/`seenKeys` through
`addSpec`, and which `addSpec` calls happen never depends on that state; so
the function is embedded as: generate the stream of `addSpec` requests in
source order (`allRequests`, fallible where the source can raise a
TypeError), fold `addSpec` over it (`runAddSpecs`), and sort
(`sortSpecs`). -/

/-- One display spec line: `{ label, value, priority }`. -/
structure SpecEntry where
  label : String
  value : String
  priority : Int
deriving DecidableEq, Repr

/-- One pending `addSpec(label, value, priority)` call, with the raw value. -/
structure SpecReq where
  label : String
  value : JVal
  priority : Int

/-- Is the value a JS object in the `typeof` sense (arrays included,
`null` excluded)? -/
def isObjLike : JVal → Bool
  | .jobj _ => true
  | .jarr _ => true
  | _ => false

/-- `addSpec`'s display-value formatting (app.js 255-275), applied only to
non-falsy values: special rendering for an object-valued
`Zyklenlebensdauer`, then dispatch on the value's type. -/
def formatSpecValue (label : String) (v : JVal) : String :=
  if jsToLower label = "zyklenlebensdauer" && isObjLike v then
    let es := jsEntries v
    if es.isEmpty then jsonStringify v
    else String.intercalate ", " (es.map (fun p => p.1 ++ " - " ++ jsToString p.2))
  else
    match v with
    | .jbool b => if b then "Ja" else "Nein"
    | .jnum n => toString n
    | .jarr _ => jsonStringify v
    | .jobj _ => jsonStringify v
    | .jstr s => s
    | .jnull => "null"

/-- The fold of `addSpec` (app.js 251-279) over a request stream: falsy
values are skipped, a label already seen under case-insensitive comparison
is skipped, otherwise the formatted entry is appended and the lowercased
label recorded. -/
def runAddSpecs (specs : List SpecEntry) (seen : List String) : List SpecReq → List SpecEntry
  | [] => specs
  | r :: rs =>
      if jsFalsy r.value then runAddSpecs specs seen rs
      else if jsToLower r.label ∈ seen then runAddSpecs specs seen rs
      else
        runAddSpecs (specs ++ [⟨r.label, formatSpecValue r.label r.value, r.priority⟩])
          (jsToLower r.label :: seen) rs

/-- Automatic label derivation for unmapped keys (app.js 292-296):
underscores to spaces, a space before every ASCII capital, first character
uppercased, trimmed. -/
def autoLabel (key : String) : String :=
  jsTrim (jsUpperFirst
    ⟨(underToSpace key).data.flatMap
      (fun c => if 'A' ≤ c && c ≤ 'Z' then [' ', c] else [c])⟩)

/-- Unit inference for numeric values of the generic field extractor
(app.js 307-326), keyed on substrings of the raw key. -/
def unitValue (key : String) (n : Int) : String :=
  if hasSub key "_kwh" || hasSub key "kapazitaet" then toString n ++ " kWh"
  else if hasSub key "_v" || hasSub key "spannung" then toString n ++ " V"
  else if hasSub key "_w" || hasSub key "leistung" then toString n ++ " W"
  else if hasSub key "_a" || hasSub key "strom" then toString n ++ " A"
  else if hasSub key "_kg" || hasSub key "gewicht" then toString n ++ " kg"
  else if hasSub key "_cm" || hasSub key "laenge" || hasSub key "breite" || hasSub key "hoehe" then
    toString n ++ " cm"
  else if hasSub key "_hz" || hasSub key "frequenz" then toString n ++ " Hz"
  else if hasSub key "wirkungsgrad" || hasSub key "entladetiefe" || hasSub key "prozent" then
    toString n ++ "%"
  else toString n

/-- Sub-label of a nested mapping (app.js 332): underscores to spaces,
first character uppercased (no capital-splitting, no trim). -/
def subLabelOf (subKey : String) : String := jsUpperFirst (underToSpace subKey)

/-- Unit inference one level deep (app.js 336-346). -/
def subUnitValue (subKey : String) (n : Int) : String :=
  if hasSub subKey "kwh" || hasSub subKey "kapazitaet" then toString n ++ " kWh"
  else if hasSub subKey "_w" || hasSub subKey "leistung" then toString n ++ " W"
  else if hasSub subKey "_v" || hasSub subKey "spannung" then toString n ++ " V"
  else if hasSub subKey "wirkungsgrad" then toString n ++ "%"
  else toString n

/-- Flattening of a nested mapping to `SubLabel: value` fragments
(app.js 327-351); empty/null sub-values are dropped. -/
def formatNested (fs : List (String × JVal)) : String :=
  String.intercalate ", "
    (fs.filterMap (fun p =>
      match p.2 with
      | .jnull => none
      | .jstr "" => none
      | .jbool b => some (subLabelOf p.1 ++ ": " ++ (if b then "Ja" else "Nein"))
      | .jnum n => some (subLabelOf p.1 ++ ": " ++ subUnitValue p.1 n)
      | v => some (subLabelOf p.1 ++ ": " ++ jsToString v)))

/-- Display value of one field in the generic extractor (app.js 298-354);
`none` only for the empty-array skip. -/
def formatFieldValue (key : String) (v : JVal) : Option String :=
  match v with
  | .jarr [] => none
  | .jarr xs => some (jsJoinCommaSpace xs)
  | .jbool b => some (if b then "Ja" else "Nein")
  | .jnum n => some (unitValue key n)
  | .jobj fs => some (formatNested fs)
  | .jstr s => some s
  | .jnull => some "null"

/-- One entry of `extractFieldsFromObject`'s loop (app.js 285-357): skip
null/empty values and internal keys, then label (mapping or derived) and
formatted value. -/
def entryReq (mapping : List (String × String)) (prio : Int) (pfx : String)
    (kv : String × JVal) : Option SpecReq :=
  if isNullOrEmptyStr kv.2 then none
  else if strStarts kv.1 "_" || kv.1 == "quelle" then none
  else
    let label := match mapping.find? (fun m => m.1 == kv.1) with
      | some m => m.2
      | none => autoLabel kv.1
    (formatFieldValue kv.1 kv.2).map (fun dv => ⟨pfx ++ label, .jstr dv, prio⟩)

/-- Requests issued by `extractFieldsFromObject` (app.js 282-358). -/
def fieldReqs (mapping : List (String × String)) (prio : Int) (pfx : String)
    (obj : JVal) : List SpecReq :=
  if jsTruthy obj && isObjLike obj then
    (jsEntries obj).filterMap (entryReq mapping prio pfx)
  else []

/-- `key.replace(/_/g,' ').replace(/^./, s => s.toUpperCase())`. -/
def capWords (s : String) : String := jsUpperFirst (underToSpace s)

/-- Value rendering inside the `Set gesamt` summary (app.js 391-400). -/
def gesamtFormat (key : String) (v : JVal) : String :=
  match v with
  | .jbool b => if b then "Ja" else "Nein"
  | .jnum n =>
      if hasSub key "kwh" || hasSub key "kapazitaet" then toString n ++ " kWh"
      else if hasSub key "_w" || hasSub key "leistung" then toString n ++ " W"
      else if hasSub key "_v" || hasSub key "spannung" then toString n ++ " V"
      else toString n
  | x => jsToString x

/-- Value rendering inside a component's flattened specs (app.js 422-434). -/
def kompFormat (key : String) (v : JVal) : String :=
  match v with
  | .jbool b => if b then "Ja" else "Nein"
  | .jnum n =>
      if hasSub key "kwh" || hasSub key "kapazitaet" then toString n ++ " kWh"
      else if hasSub key "_w" || hasSub key "leistung" then toString n ++ " W"
      else if hasSub key "_v" || hasSub key "spannung" then toString n ++ " V"
      else if hasSub key "wirkungsgrad" then toString n ++ "%"
      else toString n
  | x => jsToString x

/-- `.length > 0` as evaluated on the recognized-component-types value. -/
def jsLengthGtZero : JVal → Bool
  | .jarr xs => 0 < xs.length
  | .jstr s => 0 < s.length
  | .jobj fs => match jsGet (JVal.jobj fs) "length" with
      | some lv => jsGtZero lv
      | none => false
  | _ => false

/-- Does the payload signal a set product (app.js 365)? -/
def setBranchOn (payload : JVal) : Bool :=
  jsTruthy (jsGetD payload "ist_set") || jsTruthy (jsGetD payload "set_spezifikationen")
    || jsTruthy (jsGetD payload "set_gesamt")
    || jsTruthy (jsGetD payload "komponenten_spezifikationen")

/-- `payload.set_spezifikationen || \x7b\x7d` (app.js 366). -/
def setSpecsVal (payload : JVal) : JVal :=
  jsOr (jsGetD payload "set_spezifikationen") (.jobj [])

/-- `payload.set_typ_detail || setSpecs.set_typ || ''` (app.js 369). -/
def setTypVal (payload : JVal) : JVal :=
  jsOr (jsGetD payload "set_typ_detail")
    (jsOr (jsGetD (setSpecsVal payload) "set_typ") (.jstr ""))

/-- `payload.erkannte_komponenten_typen || setSpecs.erkannte_typen || []`
(app.js 370). -/
def erkannteVal (payload : JVal) : JVal :=
  jsOr (jsGetD payload "erkannte_komponenten_typen")
    (jsOr (jsGetD (setSpecsVal payload) "erkannte_typen") (.jarr []))

/-- The `Set-Typ` entry (app.js 373-375): `setTyp.replace` throws on a
truthy non-string set type. -/
def setTypReqs (payload : JVal) : Except String (List SpecReq) :=
  let setTyp := setTypVal payload
  if jsTruthy setTyp then
    match setTyp with
    | .jstr s => .ok [⟨"Set-Typ", .jstr (capWords s), 100⟩]
    | _ => .error "TypeError: setTyp.replace is not a function"
  else .ok []

/-- `erkannteTypen.map(t => t.replace(/^./, s => s.toUpperCase()))`:
capitalizes each element, throwing on the first non-string. -/
def capNames : List JVal → Except String (List String)
  | [] => .ok []
  | .jstr s :: xs => (capNames xs).map (fun ns => jsUpperFirst s :: ns)
  | _ :: _ => .error "TypeError: t.replace is not a function"

/-- The `Enthält` entry (app.js 378-380): `.map(t => t.replace(...))`
throws on a non-array with positive length or an array holding a
non-string. -/
def erkannteReqs (payload : JVal) : Except String (List SpecReq) :=
  let erkannteTypen := erkannteVal payload
  if jsTruthy erkannteTypen && jsLengthGtZero erkannteTypen then
    match erkannteTypen with
    | .jarr xs =>
        (capNames xs).map (fun names =>
          [(⟨"Enthält", .jstr (String.intercalate ", " names), 99⟩ : SpecReq)])
    | _ => .error "TypeError: erkannteTypen.map is not a function"
  else .ok []

/-- The `Set gesamt` summary entry (app.js 383-408). -/
def gesamtReqs (payload : JVal) : List SpecReq :=
  let setGesamt := jsOr (jsGetD payload "set_gesamt")
    (jsOr (jsGetD (setSpecsVal payload) "set_gesamt") (.jobj []))
  if jsTruthy setGesamt && isObjLike setGesamt && 0 < (jsKeys setGesamt).length then
    let parts := (jsEntries setGesamt).filterMap (fun p =>
      if isNullOrEmptyStr p.2 then none
      else some (capWords p.1 ++ ": " ++ gesamtFormat p.1 p.2))
    if parts.isEmpty then []
    else [⟨"Set gesamt", .jstr (String.intercalate ", " parts), 98⟩]
  else []

/-- Per-component entries with strictly decreasing priorities from 97
(app.js 411-445). -/
def kompReqs (payload : JVal) : List SpecReq :=
  let komponenten := jsOr (jsGetD payload "komponenten_spezifikationen")
    (jsOr (jsGetD (setSpecsVal payload) "komponenten") (.jobj []))
  if jsTruthy komponenten && isObjLike komponenten then
    ((jsEntries komponenten).foldl (fun (acc : List SpecReq × Int) kp =>
      if jsTruthy kp.2 && isObjLike kp.2 && 0 < (jsKeys kp.2).length then
        let parts := (jsEntries kp.2).filterMap (fun p =>
          if isNullOrEmptyStr p.2 then none
          else some (capWords p.1 ++ ": " ++ kompFormat p.1 p.2))
        if parts.isEmpty then acc
        else (acc.1 ++ [(⟨capWords kp.1, .jstr (String.intercalate ", " parts), acc.2⟩ : SpecReq)],
              acc.2 - 1)
      else acc) ([], 97)).1
  else []

/-- Set-product requests (app.js 365-446).  This is where the source can
throw. -/
def setRequests (payload : JVal) : Except String (List SpecReq) :=
  if !setBranchOn payload then .ok []
  else do
    let typReqs ← setTypReqs payload
    let erkReqs ← erkannteReqs payload
    .ok (typReqs ++ erkReqs ++ gesamtReqs payload ++ kompReqs payload)

/-- `(product.produkttyp || '').toLowerCase()` (app.js 360); throws on a
truthy non-string category. -/
def produkttypOf (product : JVal) : Except String String :=
  match jsOr (jsGetD product "produkttyp") (.jstr "") with
  | .jstr s => .ok (jsToLower s)
  | _ => .error "TypeError: produkttyp.toLowerCase is not a function"

def batterieLabels : List (String × String) :=
  [("kapazitaet_ah", "Kapazität (Ah)"), ("kapazitaet_kwh", "Kapazität (kWh)"),
   ("spannung_v", "Spannung"), ("zelltyp", "Zelltyp"), ("zellanzahl", "Zellenanzahl"),
   ("entladetiefe", "Entladetiefe"), ("max_entladestrom_a", "Max. Entladestrom"),
   ("max_ladestrom_a", "Max. Ladestrom"), ("zykluslebensdauer", "Zyklenlebensdauer"),
   ("temperaturbereich", "Temperaturbereich"), ("bms", "BMS (Batterie-Management)"),
   ("parallelschaltung", "Parallelschaltung"), ("reihenschaltung", "Reihenschaltung"),
   ("selbstentladung_prozent_monat", "Selbstentladung/Monat"),
   ("ladezeit_stunden", "Ladezeit"), ("gewicht_kg", "Gewicht"),
   ("abmessungen_mm", "Abmessungen"), ("integrierte_heizung", "Integrierte Heizung")]

def wechselrichterLabels : List (String × String) :=
  [("nennleistung_w", "Nennleistung"), ("max_leistung_w", "Max. Leistung"),
   ("eingangsspannung_v", "Eingangsspannung"), ("ausgangsspannung_v", "Ausgangsspannung"),
   ("eingangsstrom_a", "Eingangsstrom"), ("ausgangsstrom_a", "Ausgangsstrom"),
   ("wirkungsgrad", "Wirkungsgrad"), ("phasen", "Phasen"), ("mppt", "MPPT"),
   ("mppt_spannung_v", "MPPT Spannung"), ("mppt_anzahl", "MPPT Anzahl"),
   ("max_leerlaufspannung_v", "Max. Leerlaufspannung"), ("wellenform", "Wellenform"),
   ("frequenz_hz", "Frequenz"), ("schutzklasse", "Schutzklasse")]

def hybridwechselrichterLabels : List (String × String) :=
  [("pv_leistung_max_w", "PV-Leistung max"), ("pv_spannung_max_v", "PV-Spannung max"),
   ("pv_spannung_min_v", "PV-Spannung min"), ("pv_strom_max_a", "PV-Strom max"),
   ("batterie_spannung_v", "Batterie-Spannung"),
   ("batterie_kapazitaet_min_kwh", "Batterie-Kapazität min"),
   ("batterie_kapazitaet_max_kwh", "Batterie-Kapazität max"), ("notstrom", "Notstrom"),
   ("notstrom_leistung_w", "Notstrom-Leistung"), ("netzparallel", "Netzparallel"),
   ("inselbetrieb", "Inselbetrieb"), ("kompatible_batterien", "Kompatible Batterien"),
   ("phasen", "Phasen"), ("wirkungsgrad", "Wirkungsgrad"),
   ("nennleistung_w", "Nennleistung"), ("max_leistung_w", "Max. Leistung")]

def speichersystemLabels : List (String × String) :=
  [("speicherkapazitaet_kwh", "Speicherkapazität"), ("speichertyp", "Speichertyp"),
   ("batterie_spannung_v", "Batterie-Spannung"),
   ("wechselrichter_integriert", "Wechselrichter integriert"),
   ("wechselrichter_leistung_w", "Wechselrichter-Leistung"), ("notstrom", "Notstrom"),
   ("notstrom_leistung_w", "Notstrom-Leistung"), ("erweiterbar", "Erweiterbar"),
   ("max_module", "Max. Module"), ("modul_kapazitaet_kwh", "Modul-Kapazität"),
   ("entladetiefe", "Entladetiefe"), ("wirkungsgrad_roundtrip", "Roundtrip-Wirkungsgrad"),
   ("max_entladeleistung_w", "Max. Entladeleistung"),
   ("max_ladeleistung_w", "Max. Ladeleistung"), ("inselbetrieb", "Inselbetrieb"),
   ("kompatible_wechselrichter", "Kompatible Wechselrichter"),
   ("max_speicherkapazitaet_kwh", "Max. Speicherkapazität"),
   ("selbstloeschend", "Selbstlöschend")]

def solarmodulLabels : List (String × String) :=
  [("modulleistung_wp", "Modulleistung"), ("modulspannung_voc_v", "Leerlaufspannung (Voc)"),
   ("modulspannung_vmp_v", "MPP-Spannung (Vmp)"), ("modulstrom_isc_a", "Kurzschlussstrom (Isc)"),
   ("modulstrom_imp_a", "MPP-Strom (Imp)"), ("modultyp", "Modultyp"),
   ("zellenanzahl", "Zellenanzahl"), ("zelltyp", "Zelltyp"),
   ("wirkungsgrad", "Wirkungsgrad"), ("temperaturkoeffizient_pmax", "Temp.-Koeff. Pmax"),
   ("temperaturkoeffizient_voc", "Temp.-Koeff. Voc"),
   ("temperaturkoeffizient_isc", "Temp.-Koeff. Isc"),
   ("max_systemspannung_v", "Max. Systemspannung"),
   ("max_serienschaltung", "Max. Serienschaltung"),
   ("max_parallelschaltung", "Max. Parallelschaltung"), ("abmessungen_mm", "Abmessungen"),
   ("gewicht_kg", "Gewicht"), ("rahmenhoehe", "Rahmenhöhe"), ("rahmenfarbe", "Rahmenfarbe"),
   ("bifazial", "Bifazial"), ("full_black", "Full Black"),
   ("transparent", "Transparent/Lichtdurchlässig")]

def ladereglerLabels : List (String × String) :=
  [("laderegler_typ", "Laderegler-Typ"), ("ladestrom_a", "Ladestrom"),
   ("ladestrom_max_a", "Max. Ladestrom"), ("pv_leistung_max_w", "PV-Leistung max"),
   ("pv_spannung_max_v", "PV-Spannung max"), ("pv_spannung_min_v", "PV-Spannung min"),
   ("pv_strom_max_a", "PV-Strom max"), ("batterie_spannung_v", "Batterie-Spannung"),
   ("spannungsbereich_v", "Spannungsbereich"),
   ("temperaturkompensation", "Temperaturkompensation"), ("ladephasen", "Ladephasen"),
   ("ladeprotokolle", "Ladeprotokolle"),
   ("unterstuetzte_batterietypen", "Unterstützte Batterietypen")]

def spannungswandlerLabels : List (String × String) :=
  [("eingangsspannung_v", "Eingangsspannung"), ("ausgangsspannung_v", "Ausgangsspannung"),
   ("leistung_w", "Leistung"), ("strom_max_a", "Max. Strom"),
   ("wirkungsgrad", "Wirkungsgrad"), ("isoliert", "Galvanisch isoliert"),
   ("schutzklasse", "Schutzklasse"), ("temperaturbereich", "Temperaturbereich"),
   ("unterstuetzte_batterietypen", "Unterstützte Batterietypen")]

def mikrowechselrichterLabels : List (String × String) :=
  [("modulleistung_max_wp", "Max. Modulleistung"), ("modulspannung_max_v", "Max. Modulspannung"),
   ("modulspannung_min_v", "Min. Modulspannung"), ("modulstrom_max_a", "Max. Modulstrom"),
   ("ausgangsspannung_v", "Ausgangsspannung"), ("ausgangsleistung_w", "Ausgangsleistung"),
   ("wirkungsgrad", "Wirkungsgrad"), ("mppt", "MPPT"), ("netzparallel", "Netzparallel"),
   ("phasen", "Phasen")]

def stringwechselrichterLabels : List (String × String) :=
  [("nennleistung_w", "Nennleistung"), ("pv_leistung_max_w", "PV-Leistung max"),
   ("pv_spannung_max_v", "PV-Spannung max"), ("pv_spannung_min_v", "PV-Spannung min"),
   ("pv_strom_max_a", "PV-Strom max"), ("mppt_anzahl", "MPPT Anzahl"),
   ("mppt_spannung_v", "MPPT Spannung"), ("ausgangsspannung_v", "Ausgangsspannung"),
   ("ausgangsleistung_w", "Ausgangsleistung"), ("wirkungsgrad", "Wirkungsgrad"),
   ("phasen", "Phasen"), ("netzparallel", "Netzparallel"),
   ("max_leerlaufspannung_v", "Max. Leerlaufspannung")]

def powerstationLabels : List (String × String) :=
  [("kapazitaet_wh", "Kapazität (Wh)"), ("kapazitaet_kwh", "Kapazität (kWh)"),
   ("nennleistung_w", "Nennleistung"), ("max_leistung_w", "Max. Leistung"),
   ("batterie_typ", "Batterietyp"), ("wechselrichter_integriert", "Wechselrichter integriert"),
   ("notstrom", "Notstrom/USV"), ("notstrom_leistung_w", "Notstrom-Leistung"),
   ("ladezeit_stunden", "Ladezeit"), ("anschluesse", "Anschlüsse"),
   ("usb_ports", "USB-Anschlüsse"), ("ac_ausgaenge", "AC-Ausgänge"),
   ("dc_ausgaenge", "DC-Ausgänge"), ("solar_ladung", "Solar-Ladung"),
   ("solar_eingang_max_w", "Solar-Eingang max"), ("netz_ladung", "Netz-Ladung"),
   ("gewicht_kg", "Gewicht"), ("abmessungen", "Abmessungen"), ("display", "Display"),
   ("app_steuerung", "App-Steuerung"), ("wifi", "WLAN"), ("bluetooth", "Bluetooth"),
   ("erweiterbar", "Erweiterbar"), ("zykluslebensdauer", "Zyklenlebensdauer"),
   ("selbstloeschend", "Selbstlöschend")]

def zubehoerLabels : List (String × String) :=
  [("typ", "Typ"), ("spannung_v", "Spannung"), ("strom_a", "Strom"),
   ("leistung_w", "Leistung"), ("schutzklasse", "Schutzklasse"),
   ("temperaturbereich", "Temperaturbereich"), ("anschlussart", "Anschlussart"),
   ("material", "Material"), ("abmessungen_mm", "Abmessungen"), ("gewicht_kg", "Gewicht")]

/-- Category-specific extraction (app.js 475-708): the declared category
selects one label table over its `"<category>_spezifikationen"` payload at
priority 10 (accessory reads `technische_spezifikationen`). -/
def categoryReqs (pt : String) (payload : JVal) : List SpecReq :=
  let sel (cat field : String) (tbl : List (String × String)) : List SpecReq :=
    if pt == cat && jsTruthy (jsGetD payload field) then
      fieldReqs tbl 10 "" (jsGetD payload field)
    else []
  sel "batterie" "batterie_spezifikationen" batterieLabels
  ++ sel "wechselrichter" "wechselrichter_spezifikationen" wechselrichterLabels
  ++ sel "hybridwechselrichter" "hybridwechselrichter_spezifikationen" hybridwechselrichterLabels
  ++ sel "speichersystem" "speichersystem_spezifikationen" speichersystemLabels
  ++ sel "solarmodul" "solarmodul_spezifikationen" solarmodulLabels
  ++ sel "laderegler" "laderegler_spezifikationen" ladereglerLabels
  ++ sel "spannungswandler" "spannungswandler_spezifikationen" spannungswandlerLabels
  ++ sel "mikrowechselrichter" "mikrowechselrichter_spezifikationen" mikrowechselrichterLabels
  ++ sel "stringwechselrichter" "stringwechselrichter_spezifikationen" stringwechselrichterLabels
  ++ sel "powerstation" "powerstation_spezifikationen" powerstationLabels
  ++ sel "zubehoer" "technische_spezifikationen" zubehoerLabels

def bekannteSpezifikationen : List String :=
  ["batterie_spezifikationen", "wechselrichter_spezifikationen",
   "hybridwechselrichter_spezifikationen", "speichersystem_spezifikationen",
   "solarmodul_spezifikationen", "laderegler_spezifikationen",
   "spannungswandler_spezifikationen", "mikrowechselrichter_spezifikationen",
   "stringwechselrichter_spezifikationen", "powerstation_spezifikationen",
   "technische_spezifikationen", "set_spezifikationen", "komponenten_spezifikationen"]

/-- Generic fallback for unknown categories (app.js 722-730): every payload
key ending in `_spezifikationen` that is not a known one is walked with the
empty mapping at priority 8. -/
def fallbackReqs (payload : JVal) : List SpecReq :=
  (jsKeys payload).flatMap (fun key =>
    if strEnds key "_spezifikationen" && !(bekannteSpezifikationen.contains key) then
      let specData := jsGetD payload key
      if jsTruthy specData && isObjLike specData then fieldReqs [] 8 "" specData
      else []
    else [])

/-- General technical block (app.js 733-750): fixed fields at priority 5;
some pre-formatted with units via truthiness ternaries, others passed raw. -/
def technischeReqs (payload : JVal) : List SpecReq :=
  let s := jsGetD payload "technische_spezifikationen"
  if jsTruthy s then
    let fmt (k suffix : String) : JVal :=
      if jsTruthy (jsGetD s k) then .jstr (jsToString (jsGetD s k) ++ suffix) else .jnull
    [⟨"Nennleistung", fmt "nennleistung_w" " W", 5⟩,
     ⟨"Max. Leistung", fmt "max_leistung_w" " W", 5⟩,
     ⟨"Eingangsspannung", fmt "eingangsspannung_v" " V", 5⟩,
     ⟨"Ausgangsspannung", jsGetD s "ausgangsspannung_v", 5⟩,
     ⟨"Eingangsstrom", fmt "eingangsstrom_a" " A", 5⟩,
     ⟨"Ausgangsstrom", fmt "ausgangsstrom_a" " A", 5⟩,
     ⟨"Wirkungsgrad", fmt "wirkungsgrad" "%", 5⟩,
     ⟨"Wellenform", jsGetD s "wellenform", 5⟩,
     ⟨"Phasen", jsGetD s "phasen", 5⟩,
     ⟨"Frequenz", fmt "frequenz_hz" " Hz", 5⟩,
     ⟨"MPPT", jsGetD s "mppt", 5⟩,
     ⟨"MPPT Spannung", jsGetD s "mppt_spannung_v", 5⟩,
     ⟨"MPPT Anzahl", jsGetD s "mppt_anzahl", 5⟩,
     ⟨"Schutzklasse", jsGetD s "schutzklasse", 5⟩,
     ⟨"Temperaturbereich", jsGetD s "temperaturbereich", 5⟩]
  else []

def eigenschaftenLabels : List (String × String) :=
  [("notstrom", "Notstrom"), ("erweiterbar", "Erweiterbar"), ("modular", "Modular"),
   ("wartungsfrei", "Wartungsfrei"), ("app_steuerung", "App-Steuerung"),
   ("wifi", "WLAN"), ("bluetooth", "Bluetooth"), ("display", "Display")]

def sicherheitLabels : List (String × String) :=
  [("schutzklasse", "Schutzklasse"), ("ip_schutzklasse", "IP-Schutzklasse"),
   ("schutzart", "Schutzart"), ("zertifizierungen", "Zertifizierungen"),
   ("zertifikate", "Zertifikate"), ("normen", "Normen"), ("vde_norm", "VDE-Norm"),
   ("ce_kennzeichnung", "CE-Kennzeichnung"), ("tuev", "TÜV-Zertifiziert"),
   ("schutzfunktionen", "Schutzfunktionen"), ("ueberspannungsschutz", "Überspannungsschutz"),
   ("kurzschlussschutz", "Kurzschlussschutz"), ("verpolungsschutz", "Verpolungsschutz"),
   ("tiefentladeschutz", "Tiefentladeschutz"), ("ueberladeschutz", "Überladeschutz"),
   ("temperaturschutz", "Temperaturschutz"), ("selbstloeschend", "Selbstlöschend")]

/-- Feature flags (app.js 764-766), priority 3. -/
def eigenschaftenReqs (payload : JVal) : List SpecReq :=
  if jsTruthy (jsGetD payload "eigenschaften") then
    fieldReqs eigenschaftenLabels 3 "" (jsGetD payload "eigenschaften")
  else []

/-- Safety block (app.js 789-796): nested mapping at priority 2 plus three
direct payload fields. -/
def sicherheitReqs (payload : JVal) : List SpecReq :=
  (if jsTruthy (jsGetD payload "sicherheit") then
    fieldReqs sicherheitLabels 2 "" (jsGetD payload "sicherheit")
  else [])
  ++ (if jsTruthy (jsGetD payload "ip_schutzklasse") then
        [⟨"IP-Schutzklasse", jsGetD payload "ip_schutzklasse", 2⟩] else [])
  ++ (if jsTruthy (jsGetD payload "zertifikate") then
        [⟨"Zertifikate", jsGetD payload "zertifikate", 2⟩] else [])
  ++ (if jsTruthy (jsGetD payload "normen") then
        [⟨"Normen", jsGetD payload "normen", 2⟩] else [])

/-- Dimensions and weight (app.js 799-813), priority 1. -/
def dimsReqs (payload : JVal) : List SpecReq :=
  let dim (field label suffix : String) : List SpecReq :=
    let v := jsGetD payload field
    if jsTruthy v && jsGtZero v then [⟨label, .jstr (jsToString v ++ suffix), 1⟩] else []
  dim "Laenge_cm" "Länge" " cm" ++ dim "Breite_cm" "Breite" " cm"
  ++ dim "Hoehe_cm" "Höhe" " cm" ++ dim "Artikelgewicht_kg" "Gewicht" " kg"
  ++ dim "Versandgewicht_kg" "Versandgewicht" " kg"

/-- General metadata (app.js 816-818), priority 0.  `vollstaendig` is
special: any present value (null included) renders `Ja`/`Nein` by
truthiness, because the source tests `!== undefined` only. -/
def generalReqs (payload : JVal) : List SpecReq :=
  [⟨"Qualität", jsGetD payload "qualitaet", 0⟩,
   ⟨"Vollständig",
     (match jsGet payload "vollstaendig" with
      | none => .jnull
      | some v => .jstr (if jsTruthy v then "Ja" else "Nein")), 0⟩,
   ⟨"PDF-Dokumente", jsGetD payload "pdf_count", 0⟩]

/-- The full `addSpec` request stream of one normalization run, in source
order (app.js 360-818). -/
def allRequests (product payload : JVal) : Except String (List SpecReq) := do
  if isNull product || isNull payload then
    Except.error "TypeError: cannot read properties of null"
  else
    let pt ← produkttypOf product
    let setReqs ← setRequests payload
    .ok (setReqs ++ categoryReqs pt payload ++ fallbackReqs payload
         ++ technischeReqs payload ++ eigenschaftenReqs payload
         ++ sicherheitReqs payload ++ dimsReqs payload ++ generalReqs payload)

/-! ### Final sort (app.js 820-824)

`specs.sort((a,b) => b.priority - a.priority || a.label.localeCompare(b.label))`
with a consistent comparator and a stable engine sort is the stable
insertion sort by that comparator.  `localeCompare` under the fixed German
locale is modelled as: primary pass on lowercased, umlaut-folded
(`ä→a, ö→o, ü→u, ß→s`) code points, tie broken by raw code points. -/

def intCmp (a b : Int) : Ordering :=
  if a < b then .lt else if b < a then .gt else .eq

def natsCmp : List Nat → List Nat → Ordering
  | [], [] => .eq
  | [], _ :: _ => .lt
  | _ :: _, [] => .gt
  | a :: as, b :: bs =>
      if a < b then .lt else if b < a then .gt else natsCmp as bs

/-- Primary collation key of one character. -/
def foldChar (c : Char) : Nat :=
  let l := jsLowerChar c
  if l = 'ä' then 'a'.toNat
  else if l = 'ö' then 'o'.toNat
  else if l = 'ü' then 'u'.toNat
  else if l = 'ß' then 's'.toNat
  else l.toNat

/-- Model of `String.prototype.localeCompare` (German locale). -/
def localeCmp (a b : String) : Ordering :=
  (natsCmp (a.data.map foldChar) (b.data.map foldChar)).then
    (natsCmp (a.data.map Char.toNat) (b.data.map Char.toNat))

/-- The source's sort comparator as an `Ordering`. -/
def specCmp (a b : SpecEntry) : Ordering :=
  (intCmp b.priority a.priority).then (localeCmp a.label b.label)

/-- `a` may stay before `b` under the comparator. -/
def specLE (a b : SpecEntry) : Bool :=
  match specCmp a b with
  | .gt => false
  | _ => true

/-- Stable insertion preserving the relative order of equal entries. -/
def insertSpec (x : SpecEntry) : List SpecEntry → List SpecEntry
  | [] => [x]
  | y :: ys => if specLE x y then x :: y :: ys else y :: insertSpec x ys

/-- The stable sort of the spec list. -/
def sortSpecs : List SpecEntry → List SpecEntry
  | [] => []
  | x :: xs => insertSpec x (sortSpecs xs)

/-- `extractAllTechnicalSpecs(product, payload)` (app.js 246-827). -/
def extractAllTechnicalSpecs (product payload : JVal) : Except String (List SpecEntry) :=
  (allRequests product payload).map (fun reqs => sortSpecs (runAddSpecs [] [] reqs))

/-- The spec entry a request becomes when it is written. -/
def mkSpec (r : SpecReq) : SpecEntry :=
  ⟨r.label, formatSpecValue r.label r.value, r.priority⟩

/-- The first request of the stream that actually writes the case-folded
label `k`: same lowercased label and a non-falsy value. -/
def firstWriter (reqs : List SpecReq) (k : String) : Option SpecReq :=
  reqs.find? (fun r => jsToLower r.label == k && !jsFalsy r.value)

/-- Is the value a string? -/
def isStr : JVal → Bool
  | .jstr _ => true
  | _ => false

/-- Is the value an array of strings? -/
def isStrList : JVal → Bool
  | .jarr xs => xs.all isStr
  | _ => false

/-! ## Markup renderer (`markdownToHTML`, app.js 8-120)

Embedded on character lists.  The fenced-code regex
`/\x60\x60\x60([\s\S]*?)\x60\x60\x60/g` pairs fence markers left to right,
which is the split of the text on the marker with odd pieces captured; the
global inline regex passes are left-to-right scanners that advance one
character on a failed match attempt.  Scanners that skip past a match are
driven by a character-count fuel (the wrappers pass the list length, which
every proof threads exactly), keeping them structurally recursive.
`String.prototype.replace` with a string replacement is modelled verbatim
(the `$`-escape forms in replacement strings are not modelled; no input in
scope produces them). -/

/-- Cons a character onto the first piece of a split. -/
def consOnHead (c : Char) : List (List Char) → List (List Char)
  | [] => [[c]]
  | p :: ps => (c :: p) :: ps

/-- Split on the triple-backtick marker, scanning left to right. -/
def splitFence : List Char → List (List Char)
  | [] => [[]]
  | '\x60' :: '\x60' :: '\x60' :: rest => [] :: splitFence rest
  | c :: rest => consOnHead c (splitFence rest)

/-- The fence marker. -/
def fenceL : List Char := ['\x60', '\x60', '\x60']

/-- `CODEBLOCK_<i>` (app.js 14). -/
def placeholderL (i : Nat) : List Char := ("CODEBLOCK_" ++ toString i).data

/-- Result of the fence-extraction phase: rewritten text and the trimmed
code-block contents in order. -/
structure FenceRes where
  text : List Char
  codes : List (List Char)

/-- Pair up the pieces of the fence split (app.js 13-17): odd pieces become
placeholders and trimmed code contents; a final unmatched marker is
re-emitted literally. -/
def pairFences : List (List Char) → Nat → FenceRes
  | [], _ => ⟨[], []⟩
  | [a], _ => ⟨a, []⟩
  | [a, b], _ => ⟨a ++ fenceL ++ b, []⟩
  | a :: b :: c :: rest, i =>
      let r := pairFences (c :: rest) (i + 1)
      ⟨a ++ placeholderL i ++ r.text, trimL b :: r.codes⟩

/-- Split into lines (app.js 20). -/
def splitNL : List Char → List (List Char)
  | [] => [[]]
  | c :: rest => if c = '\n' then [] :: splitNL rest else consOnHead c (splitNL rest)

/-- `lines.join('\n')` (app.js 95). -/
def joinNL : List (List Char) → List Char
  | [] => []
  | [l] => l
  | l :: ls => l ++ '\n' :: joinNL ls

/-- `^<marker>\s+` with the marker and all following whitespace stripped
(app.js 41-54). -/
def headingRest (marker : List Char) (line : List Char) : Option (List Char) :=
  if marker.isPrefixOf line then
    match line.drop marker.length with
    | c :: r => if isWSChar c then some ((c :: r).dropWhile isWSChar) else none
    | [] => none
  else none

/-- The `\s+(.+)$` tail of the list-item patterns: at least one whitespace
character, then the (greedy, backtracking to leave one character)
content. -/
def wsContent (r2 : List Char) : Option (List Char) :=
  let ws := r2.takeWhile isWSChar
  let rem := r2.dropWhile isWSChar
  if ws.isEmpty then none
  else match rem with
    | [] => if 2 ≤ ws.length then some [ws.getLastD ' '] else none
    | _ => some rem

/-- `^[\s]*[-*]\s+(.+)$` (app.js 65). -/
def bulletContent (line : List Char) : Option (List Char) :=
  match line.dropWhile isWSChar with
  | c :: r2 => if c = '-' || c = '*' then wsContent r2 else none
  | [] => none

/-- `^\d+\.\s+(.+)$` (app.js 66). -/
def numberedContent (line : List Char) : Option (List Char) :=
  let digits := line.takeWhile Char.isDigit
  if digits.isEmpty then none
  else match line.drop digits.length with
    | '.' :: r2 => wsContent r2
    | _ => none

def ulClose : List Char := "</ul>".data

/-- One line of the block pass (app.js 40-88), outside code-block mode:
emitted lines and the new `inList` flag. -/
def lineStep (inList : Bool) (line : List Char) : List (List Char) × Bool :=
  match headingRest "###".data line with
  | some c => ((if inList then [ulClose] else []) ++ ["<h3>".data ++ c ++ "</h3>".data], false)
  | none =>
  match headingRest "##".data line with
  | some c => ((if inList then [ulClose] else []) ++ ["<h2>".data ++ c ++ "</h2>".data], false)
  | none =>
  match headingRest "#".data line with
  | some c => ((if inList then [ulClose] else []) ++ ["<h1>".data ++ c ++ "</h1>".data], false)
  | none =>
  if trimL line = "---".data then
    ((if inList then [ulClose] else []) ++ ["<hr>".data], false)
  else
    match bulletContent line, numberedContent line with
    | some c, _ =>
        ((if inList then [] else ["<ul>".data]) ++ ["<li>".data ++ c ++ "</li>".data], true)
    | none, some c =>
        ((if inList then [] else ["<ul>".data]) ++ ["<li>".data ++ c ++ "</li>".data], true)
    | none, none =>
        if (trimL line).isEmpty then
          ((if inList then [ulClose] else []) ++ ["<br>".data], false)
        else
          ((if inList then [ulClose] else []) ++ [line], false)

/-- The line loop (app.js 25-93) with its `inList`/`inCodeBlock` state: a
line holding a placeholder toggles code-block mode; lines in code-block
mode pass through untouched; a still-open list is closed at the end. -/
def processLines (inList inCode : Bool) : List (List Char) → List (List Char)
  | [] => if inList then [ulClose] else []
  | line :: rest =>
      if hasSubL "CODEBLOCK_".data line then line :: processLines inList (!inCode) rest
      else if inCode then line :: processLines inList inCode rest
      else
        let p := lineStep inList line
        p.1 ++ processLines p.2 inCode rest

/-- Inline code pass `/\x60([^\x60\n]+)\x60/g` (app.js 98). -/
def inlineCodeF : Nat → List Char → List Char
  | 0, l => l
  | _ + 1, [] => []
  | n + 1, c :: rest =>
      if c = '\x60' then
        let body := rest.takeWhile (fun d => d != '\x60' && d != '\n')
        match rest.drop body.length with
        | '\x60' :: rest2 =>
            if body.isEmpty then c :: inlineCodeF n rest
            else "<code>".data ++ body ++ "</code>".data ++ inlineCodeF n rest2
        | _ => c :: inlineCodeF n rest
      else c :: inlineCodeF n rest

def inlineCode (l : List Char) : List Char := inlineCodeF l.length l

/-- Link pass `/\[([^\]]+)\]\(([^)]+)\)/g` (app.js 101). -/
def linkF : Nat → List Char → List Char
  | 0, l => l
  | _ + 1, [] => []
  | n + 1, c :: rest =>
      if c = '[' then
        let t := rest.takeWhile (fun d => d != ']')
        match rest.drop t.length with
        | ']' :: '(' :: r2 =>
            let u := r2.takeWhile (fun d => d != ')')
            match r2.drop u.length with
            | ')' :: r3 =>
                if t.isEmpty || u.isEmpty then c :: linkF n rest
                else "<a href=\"".data ++ u
                     ++ "\" target=\"_blank\" rel=\"noopener noreferrer\">".data
                     ++ t ++ "</a>".data ++ linkF n r3
            | _ => c :: linkF n rest
        | _ => c :: linkF n rest
      else c :: linkF n rest

def linkPass (l : List Char) : List Char := linkF l.length l

/-- Bold pass for marker `m`: `/mm([^m\n]+?)mm/g` (app.js 104-105). -/
def boldF (m : Char) : Nat → List Char → List Char
  | 0, l => l
  | _ + 1, [] => []
  | n + 1, c :: rest =>
      if c = m then
        match rest with
        | c2 :: rest2 =>
            if c2 = m then
              let b := rest2.takeWhile (fun d => d != m && d != '\n')
              match rest2.drop b.length with
              | d1 :: d2 :: r2 =>
                  if d1 = m && d2 = m && !b.isEmpty then
                    "<strong>".data ++ b ++ "</strong>".data ++ boldF m n r2
                  else c :: boldF m n rest
              | _ => c :: boldF m n rest
            else c :: boldF m n rest
        | [] => c :: boldF m n rest
      else c :: boldF m n rest

def boldPass (m : Char) (l : List Char) : List Char := boldF m l.length l

/-- Italic pass for marker `m`: `/(?<!m)m([^m\n]+?)m(?!m)/g`
(app.js 108-109).  The flag records whether the previous character of the
scanned text is the marker (the lookbehind). -/
def italF (m : Char) : Nat → Bool → List Char → List Char
  | 0, _, l => l
  | _ + 1, _, [] => []
  | n + 1, prevM, c :: rest =>
      if c = m then
        if prevM then c :: italF m n true rest
        else
          let b := rest.takeWhile (fun d => d != m && d != '\n')
          match rest.drop b.length with
          | d1 :: r2 =>
              if d1 = m && !b.isEmpty then
                match r2 with
                | d2 :: _ =>
                    if d2 = m then c :: italF m n true rest
                    else "<em>".data ++ b ++ "</em>".data ++ italF m n true r2
                | [] => "<em>".data ++ b ++ "</em>".data ++ italF m n true r2
              else c :: italF m n true rest
          | [] => c :: italF m n true rest
      else c :: italF m n (c == m) rest

def italPass (m : Char) (l : List Char) : List Char := italF m l.length false l

/-- `String.prototype.replace` with a plain-string pattern: first
occurrence only (app.js 113). -/
def replaceFirstL (pat repl : List Char) : List Char → List Char
  | [] => []
  | c :: rest =>
      if pat.isPrefixOf (c :: rest) then repl ++ (c :: rest).drop pat.length
      else c :: replaceFirstL pat repl rest

/-- `<pre><code>` wrapping of a reinserted block (app.js 113). -/
def preTag (code : List Char) : List Char :=
  "<pre><code>".data ++ code ++ "</code></pre>".data

/-- `codeBlocks.forEach(...)` (app.js 112-114). -/
def reinsertCodes (codes : List (List Char)) (i : Nat) (html : List Char) : List Char :=
  match codes with
  | [] => html
  | code :: rest => reinsertCodes rest (i + 1) (replaceFirstL (placeholderL i) (preTag code) html)

/-- One `(<br>\s*)` unit. -/
def brDrop : List Char → Option (List Char)
  | '<' :: 'b' :: 'r' :: '>' :: rest => some (rest.dropWhile isWSChar)
  | _ => none

/-- Greedy run of `(<br>\s*)` units. -/
def brRunF : Nat → List Char → Nat × List Char
  | 0, l => (0, l)
  | n + 1, l =>
      match brDrop l with
      | some r => let p := brRunF n r; (p.1 + 1, p.2)
      | none => (0, l)

/-- `/(<br>\s*){2,}/g → '<br><br>'` (app.js 117). -/
def collapseF : Nat → List Char → List Char
  | 0, l => l
  | _ + 1, [] => []
  | n + 1, c :: rest =>
      let p := brRunF (c :: rest).length (c :: rest)
      if 2 ≤ p.1 then "<br><br>".data ++ collapseF n p.2
      else c :: collapseF n rest

def collapsePass (l : List Char) : List Char := collapseF l.length l

/-- The inline-substitution chain and code-block reinsertion
(app.js 98-117) applied to the joined line output. -/
def phaseB (codes : List (List Char)) (joined : List Char) : List Char :=
  collapsePass (reinsertCodes codes 0
    (italPass '_' (italPass '*' (boldPass '_' (boldPass '*'
      (linkPass (inlineCode joined)))))))

/-- The full pipeline on a non-empty input (app.js 11-119). -/
def mdCore (input : List Char) : List Char :=
  phaseB (pairFences (splitFence input) 0).codes
    (joinNL (processLines false false (splitNL (pairFences (splitFence input) 0).text)))

/-- `markdownToHTML(markdown)` (app.js 8-120). -/
def markdownToHTML (markdown : String) : String :=
  if markdown.data.isEmpty then "" else ⟨mdCore markdown.data⟩

/-! ### Observation functions for the fencing claims -/

/-- Number of fence markers in a text. -/
def fenceCount (s : String) : Nat := (splitFence s.data).length - 1

/-- The odd pieces of the fence split: the raw code-block contents of the
input, in order (the last piece after an unmatched marker is not one). -/
def oddPieces : List (List Char) → List (List Char)
  | [] => []
  | [_] => []
  | [_, _] => []
  | _ :: b :: c :: rest => b :: oddPieces (c :: rest)

/-- The raw code-block contents of a markup input. -/
def fencedContents (s : String) : List (List Char) := oddPieces (splitFence s.data)

/-- Split at the first occurrence of `pat`: the part before and the part
after it. -/
def splitAtSub (pat : List Char) : List Char → Option (List Char × List Char)
  | [] => if pat.isEmpty then some ([], []) else none
  | c :: rest =>
      if pat.isPrefixOf (c :: rest) then some ([], (c :: rest).drop pat.length)
      else (splitAtSub pat rest).map (fun p => (c :: p.1, p.2))

/-- The block-code contents of a rendered output: the segments between
`<pre><code>` and `</code></pre>`. -/
def preCodeScan : Nat → List Char → List (List Char)
  | 0, _ => []
  | _ + 1, [] => []
  | n + 1, c :: rest =>
      if "<pre><code>".data.isPrefixOf (c :: rest) then
        match splitAtSub "</code></pre>".data ((c :: rest).drop 11) with
        | some (body, after) => body :: preCodeScan n after
        | none => []
      else preCodeScan n rest

def preCodeContents (s : String) : List (List Char) := preCodeScan s.data.length s.data

/-- Strip every `<...>` tag from a rendered fragment. -/
def stripTagsF : Nat → List Char → List Char
  | 0, l => l
  | _ + 1, [] => []
  | n + 1, c :: rest =>
      if c = '<' then
        match rest.dropWhile (fun d => d != '>') with
        | '>' :: r2 => stripTagsF n r2
        | _ => c :: stripTagsF n rest
      else c :: stripTagsF n rest

def stripTags (l : List Char) : List Char := stripTagsF l.length l

instance : DecidableEq (Except String (List SpecEntry)) := fun a b =>
  match a, b with
  | .ok x, .ok y => decidable_of_iff (x = y) (by simp)
  | .error x, .error y => decidable_of_iff (x = y) (by simp)
  | .ok _, .error _ => isFalse (by simp)
  | .error _, .ok _ => isFalse (by simp)

/-- The §8.6 example product: `{produkttyp:"batterie"}`. -/
def batterieProduct : JVal := .jobj [("produkttyp", .jstr "batterie")]

/-- The §8.6 example payload:
`{batterie_spezifikationen:{kapazitaet_kwh:5, bms:true}}`. -/
def batteriePayload : JVal :=
  .jobj [("batterie_spezifikationen",
    .jobj [("kapazitaet_kwh", .jnum 5), ("bms", .jbool true)])]

/-- A payload whose `technische_spezifikationen` block (priority 5) and
`sicherheit` block (priority 2) both normalize to the label
`Schutzklasse`. -/
def dedupPayload : JVal :=
  .jobj [("technische_spezifikationen", .jobj [("schutzklasse", .jstr "IP65")]),
         ("sicherheit", .jobj [("schutzklasse", .jstr "IP66")])]

/-! ### The comparison structurer (app.js 1225-1562) -/

/-- A product record as passed by the comparison callers: the two fields the
structurer reads (app.js 1265-1268). -/
structure Product where
  artikelname : String
  artikelnummer : String
deriving DecidableEq

/-- Per-product part of the result (app.js 1227-1236 plus the dynamically
added fields `verwendung`, `kompatibilitaet`, `eigenschaften`, modelled with
the empty string for "not yet assigned"). -/
structure ProdInfo where
  einsatzgebiete : List String
  kurzbeschreibung : String
  empfehlung : String
  verwendung : String
  kompatibilitaet : String
  eigenschaften : String
deriving DecidableEq

/-- `produkt1_alles` / `produkt2_alles` (app.js 1244-1253). -/
structure AllesInfo where
  vorteile : List String
  nachteile : List String
  weitere_info : List String
deriving DecidableEq

/-- The `vergleich` part of the result (app.js 1238-1254). -/
structure VglInfo where
  vergleich_allgemein : List String
  technische_unterschiede : List String
  preis_leistung : List String
  wann_besser : List String
  vergleich_text : String
  produkt1_alles : AllesInfo
  produkt2_alles : AllesInfo
deriving DecidableEq

/-- The full result (app.js 1226-1254). -/
structure CompResult where
  produkt1 : ProdInfo
  produkt2 : ProdInfo
  vergleich : VglInfo
deriving DecidableEq

def emptyProdInfo : ProdInfo := ⟨[], "", "", "", "", ""⟩

def emptyAllesInfo : AllesInfo := ⟨[], [], []⟩

def emptyVglInfo : VglInfo := ⟨[], [], [], [], "", emptyAllesInfo, emptyAllesInfo⟩

/-- The all-empty result the function starts from and returns on the guard. -/
def emptyResult : CompResult := ⟨emptyProdInfo, emptyProdInfo, emptyVglInfo⟩

/-- The value of `currentProduct` (app.js 1273). -/
inductive Owner where
  | p1
  | p2
  | vgl
deriving DecidableEq

/-- The value of `currentSection` (app.js 1274): the four strings it is ever
assigned; `none` is `null`. -/
inductive CSec where
  | prod1
  | prod2
  | prod1Alles
  | prod2Alles
deriving DecidableEq

/-- The per-section parser flags (app.js 1296-1306), all reset to `false` at
the start of every section. -/
structure Flags where
  einsatz : Bool
  kurz : Bool
  empf : Bool
  vorteile : Bool
  nachteile : Bool
  vergleich : Bool
  vglAllg : Bool
  techU : Bool
  preisL : Bool
  wannB : Bool
  weitInfo : Bool
deriving DecidableEq

def flags0 : Flags := ⟨false, false, false, false, false, false, false, false, false, false, false⟩

/-- State carried across the lines of one section. -/
structure LineState where
  flags : Flags
  cs : Option CSec
  res : CompResult

/-- State carried across sections: `currentProduct` and `currentSection`
persist (app.js 1273-1274, declared outside the section loop). -/
structure SecState where
  owner : Option Owner
  cs : Option CSec
  res : CompResult

/-- `responseText.split(/===/)` (app.js 1271): split on each occurrence of
the three-character marker, scanning left to right. -/
def splitEq3 : List Char → List (List Char)
  | [] => [[]]
  | '=' :: '=' :: '=' :: rest => [] :: splitEq3 rest
  | c :: rest => consOnHead c (splitEq3 rest)

/-- `line.match(/^[-*•]\s+/)` as a Bool: a bullet marker followed by at
least one whitespace character. -/
def bulletMatch : List Char → Bool
  | c :: d :: _ => (c == '-' || c == '*' || c == '•') && isWSChar d
  | _ => false

/-- `line.replace(/^[-*•]\s+/, '').trim()` on a line that matches: drop the
marker and the greedy whitespace run, then trim. -/
def bulletBody (line : List Char) : String := ⟨trimL ((line.drop 1).dropWhile isWSChar)⟩

/-- `if (content && content.length > 10) xs.push(content)` (app.js 1354). -/
def pushIfLong (xs : List String) (content : String) : List String :=
  if ¬ content.data.isEmpty ∧ 10 < content.data.length then xs ++ [content] else xs

/-- `cur ? cur + ' ' + line : line` accumulation (app.js 1390-1394). -/
def extendStr (cur line : String) : String :=
  if cur.data.isEmpty then line else cur ++ " " ++ line

/-- Case-insensitive prefix test: the regex `/i` flag, folding the text with
the same lowering the source uses. -/
def ciPref : List Char → List Char → Bool
  | [], _ => true
  | _ :: _, [] => false
  | p :: ps, c :: cs => (jsLowerChar c == p) && ciPref ps cs

/-- The `:?\s*(.+)` tail of the capture regexes (app.js 1362 etc.), with the
engine backtracking: the greedy optional colon and whitespace run give back
characters so that `(.+)` can match at least one. -/
def wsCapture : List Char → Option (List Char)
  | ':' :: r1 =>
      let rem := r1.dropWhile isWSChar
      if !rem.isEmpty then some rem
      else if !r1.isEmpty then some [r1.getLastD ' ']
      else some [':']
  | r0 =>
      let rem := r0.dropWhile isWSChar
      if !rem.isEmpty then some rem
      else if !r0.isEmpty then some [r0.getLastD ' ']
      else none

/-- Search semantics of `line.match(/(?:A:?\s*|B:?\s*)(.+)/i)`: at each
position, try each alternative keyword in order with the backtracking tail;
leftmost match wins; returns the first capture group. -/
def capSearchF (pats : List (List Char)) : List Char → Option (List Char)
  | [] => none
  | c :: rest =>
      match pats.findSome? (fun pat =>
          if ciPref pat (c :: rest) then wsCapture ((c :: rest).drop pat.length) else none) with
      | some cap => some cap
      | none => capSearchF pats rest

/-- Update the record of `result[currentProduct]` (only ever reached with
`produkt1`/`produkt2`, app.js 1350). -/
def updProd (ow : Owner) (r : CompResult) (f : ProdInfo → ProdInfo) : CompResult :=
  match ow with
  | .p1 => { r with produkt1 := f r.produkt1 }
  | .p2 => { r with produkt2 := f r.produkt2 }
  | .vgl => r

def updVgl (r : CompResult) (f : VglInfo → VglInfo) : CompResult :=
  { r with vergleich := f r.vergleich }

def updP1A (r : CompResult) (f : AllesInfo → AllesInfo) : CompResult :=
  updVgl r (fun v => { v with produkt1_alles := f v.produkt1_alles })

def updP2A (r : CompResult) (f : AllesInfo → AllesInfo) : CompResult :=
  updVgl r (fun v => { v with produkt2_alles := f v.produkt2_alles })

/-- Content extraction for a `produkt1`/`produkt2` section
(app.js 1350-1400). -/
def prodLine (ow : Owner) (st : LineState) (line : List Char) (ll : String) : LineState :=
  if st.flags.einsatz && bulletMatch line then
    { st with res := updProd ow st.res (fun p =>
        { p with einsatzgebiete := pushIfLong p.einsatzgebiete (bulletBody line) }) }
  else if st.flags.kurz && decide (10 < line.length) && !strStarts ⟨line⟩ "**" then
    if hasSub ll "verwendung:" || hasSub ll "verwendung " then
      match capSearchF ["verwendung".data] line with
      | some cap =>
          { st with res := updProd ow st.res (fun p => { p with verwendung := ⟨trimL cap⟩ }) }
      | none => st
    else if hasSub ll "kompatibilität:" || hasSub ll "kompatibel" then
      match capSearchF ["kompatibilität".data, "kompatibel".data] line with
      | some cap =>
          { st with res := updProd ow st.res (fun p => { p with kompatibilitaet := ⟨trimL cap⟩ }) }
      | none => st
    else if hasSub ll "spezielle eigenschaften:" || hasSub ll "eigenschaften:" then
      match capSearchF ["spezielle eigenschaften".data, "eigenschaften".data] line with
      | some cap =>
          { st with res := updProd ow st.res (fun p => { p with eigenschaften := ⟨trimL cap⟩ }) }
      | none => st
    else if bulletMatch line then
      let content := bulletBody line
      if 10 < content.data.length then
        { st with res := updProd ow st.res (fun p =>
            if p.verwendung.data.isEmpty && p.kompatibilitaet.data.isEmpty
                && p.eigenschaften.data.isEmpty then
              { p with verwendung := content }
            else if p.kompatibilitaet.data.isEmpty then { p with kompatibilitaet := content }
            else if p.eigenschaften.data.isEmpty then { p with eigenschaften := content }
            else p) }
      else st
    else if 20 < line.length then
      { st with res := updProd ow st.res (fun p =>
          { p with kurzbeschreibung := extendStr p.kurzbeschreibung ⟨line⟩ }) }
    else st
  else if st.flags.empf && decide (10 < line.length) && !strStarts ⟨line⟩ "**" then
    { st with res := updProd ow st.res (fun p =>
        { p with empfehlung := extendStr p.empfehlung ⟨line⟩ }) }
  else st

/-- Heading recognition for the `vergleich` section (app.js 1404-1471):
`some` is a recognized heading line (the line is consumed), `none` falls
through to content extraction. -/
def vglHeading (st : LineState) (ll : String) : Option LineState :=
  if hasSub ll "vergleich allgemein" || hasSub ll "**vergleich allgemein**"
      || strStarts ll "vergleich allgemein:" then
    some { st with cs := none, flags := { st.flags with vglAllg := true, techU := false, preisL := false, wannB := false, vorteile := false, nachteile := false, weitInfo := false } }
  else if hasSub ll "technische unterschiede" then
    some { st with cs := none, flags := { st.flags with vglAllg := false, techU := true, preisL := false, wannB := false } }
  else if hasSub ll "preis-leistungs-verhältnis" || hasSub ll "preis-leistung" then
    some { st with cs := none, flags := { st.flags with vglAllg := false, techU := false, preisL := true, wannB := false } }
  else if hasSub ll "wann welches produkt besser ist" || hasSub ll "wann besser" then
    some { st with cs := none, flags := { st.flags with vglAllg := false, techU := false, preisL := false, wannB := true } }
  else if (hasSub ll "produkt 1:" && !hasSub ll "alles") || strStarts ll "produkt 1:" then
    some { st with cs := some .prod1Alles, flags := { st.flags with vglAllg := false, techU := false, preisL := false, wannB := false, vorteile := false, nachteile := false, weitInfo := false } }
  else if (hasSub ll "produkt 2:" && !hasSub ll "alles") || strStarts ll "produkt 2:" then
    some { st with cs := some .prod2Alles, flags := { st.flags with vglAllg := false, techU := false, preisL := false, wannB := false, vorteile := false, nachteile := false, weitInfo := false } }
  else if hasSub ll "vorteile:" && st.cs.isSome then
    some { st with flags := { st.flags with vorteile := true, nachteile := false, weitInfo := false } }
  else if hasSub ll "nachteile:" && st.cs.isSome then
    some { st with flags := { st.flags with nachteile := true, vorteile := false, weitInfo := false } }
  else if hasSub ll "weitere wichtige informationen" || hasSub ll "weitere informationen" then
    some { st with flags := { st.flags with weitInfo := true, vorteile := false, nachteile := false } }
  else none

/-- Content extraction for the `vergleich` section (app.js 1474-1532). -/
def vglExtract (st : LineState) (line : List Char) : LineState :=
  if st.flags.vglAllg && bulletMatch line then
    { st with res := updVgl st.res (fun v =>
        { v with vergleich_allgemein := pushIfLong v.vergleich_allgemein (bulletBody line) }) }
  else if st.flags.techU && bulletMatch line then
    { st with res := updVgl st.res (fun v =>
        { v with technische_unterschiede := pushIfLong v.technische_unterschiede (bulletBody line) }) }
  else if st.flags.preisL && bulletMatch line then
    { st with res := updVgl st.res (fun v =>
        { v with preis_leistung := pushIfLong v.preis_leistung (bulletBody line) }) }
  else if st.flags.wannB && bulletMatch line then
    { st with res := updVgl st.res (fun v =>
        { v with wann_besser := pushIfLong v.wann_besser (bulletBody line) }) }
  else
    match st.cs with
    | some .prod1Alles =>
        if st.flags.vorteile && bulletMatch line then
          { st with res := updP1A st.res (fun a => { a with vorteile := pushIfLong a.vorteile (bulletBody line) }) }
        else if st.flags.nachteile && bulletMatch line then
          { st with res := updP1A st.res (fun a => { a with nachteile := pushIfLong a.nachteile (bulletBody line) }) }
        else if st.flags.weitInfo && bulletMatch line then
          { st with res := updP1A st.res (fun a => { a with weitere_info := pushIfLong a.weitere_info (bulletBody line) }) }
        else st
    | some .prod2Alles =>
        if st.flags.vorteile && bulletMatch line then
          { st with res := updP2A st.res (fun a => { a with vorteile := pushIfLong a.vorteile (bulletBody line) }) }
        else if st.flags.nachteile && bulletMatch line then
          { st with res := updP2A st.res (fun a => { a with nachteile := pushIfLong a.nachteile (bulletBody line) }) }
        else if st.flags.weitInfo && bulletMatch line then
          { st with res := updP2A st.res (fun a => { a with weitere_info := pushIfLong a.weitere_info (bulletBody line) }) }
        else st
    | _ => st

/-- One line of the `vergleich` section (app.js 1404-1533): the heading
chain, else the extraction. -/
def vglLine (st : LineState) (line : List Char) (ll : String) : LineState :=
  match vglHeading st ll with
  | some st2 => st2
  | none => vglExtract st line

/-- The owner-independent heading chain (app.js 1313-1347): `some` is a
recognized heading line (the line is consumed), `none` falls through to the
owner-specific extraction. -/
def sharedHeading (st : LineState) (ll : String) : Option LineState :=
  if hasSub ll "ideale einsatzgebiete" || hasSub ll "einsatzgebiete" then
    some { st with flags := { st.flags with einsatz := true, kurz := false, empf := false } }
  else if hasSub ll "kurzbeschreibung" || hasSub ll "verwendung"
      || hasSub ll "kompatibilität" || hasSub ll "spezielle eigenschaften" then
    some { st with flags := { st.flags with kurz := true, einsatz := false, empf := false } }
  else if hasSub ll "empfehlung" then
    some { st with flags := { st.flags with empf := true, einsatz := false, kurz := false } }
  else if hasSub ll "vorteile produkt 1" || hasSub ll "vorteile produkt1" then
    some { st with flags := { st.flags with vorteile := true }, cs := some .prod1 }
  else if hasSub ll "nachteile produkt 1" || hasSub ll "nachteile produkt1" then
    some { st with flags := { st.flags with nachteile := true }, cs := some .prod1 }
  else if hasSub ll "vorteile produkt 2" || hasSub ll "vorteile produkt2" then
    some { st with flags := { st.flags with vorteile := true }, cs := some .prod2 }
  else if hasSub ll "nachteile produkt 2" || hasSub ll "nachteile produkt2" then
    some { st with flags := { st.flags with nachteile := true }, cs := some .prod2 }
  else if hasSub ll "vergleich:" || hasSub ll "**vergleich**" then
    some { st with flags := { st.flags with vergleich := true } }
  else none

/-- One line of the loop (app.js 1308-1533): trim, lower, the shared heading
chain (app.js 1313-1347, which runs for every owner and ends the line), then
the owner-specific extraction. -/
def stepLine (ow : Owner) (st : LineState) (rawLine : List Char) : LineState :=
  let line := trimL rawLine
  let ll := jsToLower ⟨line⟩
  match sharedHeading st ll with
  | some st2 => st2
  | none =>
      match ow with
      | .vgl => vglLine st line ll
      | _ => prodLine ow st line ll

/-- Owner selection for a section (app.js 1280-1292): the lowercased section
is matched against the markers and both products' lowercased name and
number; on no match `currentProduct` keeps its previous value. -/
def matchOwner (p1n p2n p1a p2a : String) (prev : Option Owner) (sl : String) : Option Owner :=
  if hasSub sl "produkt 1" || hasSub sl p1n || hasSub sl p1a then some .p1
  else if hasSub sl "produkt 2" || hasSub sl p2n || hasSub sl p2a then some .p2
  else if hasSub sl "produktvergleich" then some .vgl
  else prev

/-- One section of the loop (app.js 1277-1535): select the owner, skip on
`null` (app.js 1292), otherwise reset the flags and fold the lines. -/
def stepSection (p1n p2n p1a p2a : String) (st : SecState) (piece : List Char) : SecState :=
  match matchOwner p1n p2n p1a p2a st.owner (jsToLower ⟨piece⟩) with
  | none => st
  | some ow =>
      let fin := (splitNL piece).foldl (stepLine ow) ⟨flags0, st.cs, st.res⟩
      ⟨some ow, fin.cs, fin.res⟩

/-- Post-processing of one product (app.js 1538-1551): trim and cap the
short description (500) and recommendation (300), cap the use cases (5). -/
def postProd (p : ProdInfo) : ProdInfo :=
  { p with
    kurzbeschreibung :=
      if p.kurzbeschreibung.data.isEmpty then ""
      else ⟨(trimL p.kurzbeschreibung.data).take 500⟩,
    empfehlung :=
      if p.empfehlung.data.isEmpty then "" else ⟨(trimL p.empfehlung.data).take 300⟩,
    einsatzgebiete := p.einsatzgebiete.take 5 }

/-- Post-processing (app.js 1537-1558). -/
def postResult (r : CompResult) : CompResult :=
  { r with
    produkt1 := postProd r.produkt1,
    produkt2 := postProd r.produkt2,
    vergleich := { r.vergleich with vergleich_text :=
      if r.vergleich.vergleich_text.data.isEmpty then ""
      else ⟨(trimL r.vergleich.vergleich_text.data).take 1000⟩ } }

/-- `String(responseText || '')` after the guard (app.js 1261-1263): a
string narrative passes through, any other value is coerced. -/
def narrativeText (responseText : JVal) : String :=
  match responseText with
  | .jstr s => s
  | v => jsToString v

/-- `extractStructuredComparison(responseText, products)` (app.js 1225-1562).
`products` is the callers' product array; a non-string narrative is coerced
with `String(...)` (app.js 1261-1263) before processing. -/
def extractStructuredComparison (responseText : JVal) (products : List Product) : CompResult :=
  if jsFalsy responseText ∨ products.length < 2 then emptyResult
  else
    let text : String := narrativeText responseText
    let p1n := jsToLower (products.getD 0 ⟨"", ""⟩).artikelname
    let p2n := jsToLower (products.getD 1 ⟨"", ""⟩).artikelname
    let p1a := jsToLower (products.getD 0 ⟨"", ""⟩).artikelnummer
    let p2a := jsToLower (products.getD 1 ⟨"", ""⟩).artikelnummer
    let fin := (splitEq3 text.data).foldl (stepSection p1n p2n p1a p2a) ⟨none, none, emptyResult⟩
    postResult fin.res

/-- Entries of a stored bucket all have more than 10 characters. -/
def entriesLong (xs : List String) : Prop := ∀ e ∈ xs, 10 < e.data.length

/-- Every string list of the result consists of length-filtered entries. -/
def goodRes (r : CompResult) : Prop :=
  entriesLong r.produkt1.einsatzgebiete ∧ entriesLong r.produkt2.einsatzgebiete ∧
  entriesLong r.vergleich.vergleich_allgemein ∧
  entriesLong r.vergleich.technische_unterschiede ∧
  entriesLong r.vergleich.preis_leistung ∧ entriesLong r.vergleich.wann_besser ∧
  entriesLong r.vergleich.produkt1_alles.vorteile ∧
  entriesLong r.vergleich.produkt1_alles.nachteile ∧
  entriesLong r.vergleich.produkt1_alles.weitere_info ∧
  entriesLong r.vergleich.produkt2_alles.vorteile ∧
  entriesLong r.vergleich.produkt2_alles.nachteile ∧
  entriesLong r.vergleich.produkt2_alles.weitere_info

/-- Total number of entries over all string lists of the result. -/
def totalEntries (r : CompResult) : Nat :=
  r.produkt1.einsatzgebiete.length + r.produkt2.einsatzgebiete.length +
  r.vergleich.vergleich_allgemein.length + r.vergleich.technische_unterschiede.length +
  r.vergleich.preis_leistung.length + r.vergleich.wann_besser.length +
  r.vergleich.produkt1_alles.vorteile.length + r.vergleich.produkt1_alles.nachteile.length +
  r.vergleich.produkt1_alles.weitere_info.length +
  r.vergleich.produkt2_alles.vorteile.length + r.vergleich.produkt2_alles.nachteile.length +
  r.vergleich.produkt2_alles.weitere_info.length

/-- Total number of lines the section loop processes for a narrative. -/
def lineCount (l : List Char) : Nat :=
  ((splitEq3 l).map (fun p => (splitNL p).length)).sum

/-! ## Order lemmas for the final sort -/

theorem then_ne_gt {a b : Ordering} :
    a.then b ≠ .gt ↔ a = .lt ∨ (a = .eq ∧ b ≠ .gt) := by
  cases a <;> simp [Ordering.then]

theorem then_swap (a b : Ordering) : (a.then b).swap = a.swap.then b.swap := by
  cases a <;> simp [Ordering.then, Ordering.swap]

theorem natsCmp_swap (a : List Nat) : ∀ b, natsCmp b a = (natsCmp a b).swap := by
  induction a with
  | nil => intro b; cases b <;> rfl
  | cons x xs ih =>
    intro b
    cases b with
    | nil => rfl
    | cons y ys =>
      simp only [natsCmp]
      by_cases h1 : x < y
      · have h2 : ¬ y < x := by omega
        simp [h1, h2, Ordering.swap]
      · by_cases h2 : y < x
        · simp [h1, h2, Ordering.swap]
        · simp [h1, h2, ih ys]

theorem natsCmp_eq_iff (a : List Nat) : ∀ b, natsCmp a b = .eq ↔ a = b := by
  induction a with
  | nil => intro b; cases b <;> simp [natsCmp]
  | cons x xs ih =>
    intro b
    cases b with
    | nil => simp [natsCmp]
    | cons y ys =>
      simp only [natsCmp]
      by_cases h1 : x < y
      · simp [h1]; omega
      · by_cases h2 : y < x
        · simp [h1, h2]; omega
        · have : x = y := by omega
          simp [h1, h2, ih ys, this]

theorem natsCmp_le_trans (a : List Nat) :
    ∀ b c, natsCmp a b ≠ .gt → natsCmp b c ≠ .gt → natsCmp a c ≠ .gt := by
  induction a with
  | nil => intro b c _ _; cases c <;> simp [natsCmp]
  | cons x xs ih =>
    intro b c hab hbc
    cases b with
    | nil => simp [natsCmp] at hab
    | cons y ys =>
      cases c with
      | nil => simp [natsCmp] at hbc
      | cons z zs =>
        simp only [natsCmp] at hab hbc ⊢
        by_cases h1 : x < y
        · by_cases h2 : y < z
          · have : x < z := by omega
            simp [this]
          · by_cases h3 : z < y
            · simp [h2, h3] at hbc
            · have : x < z := by omega
              simp [this]
        · by_cases h4 : y < x
          · simp [h1, h4] at hab
          · by_cases h2 : y < z
            · have : x < z := by omega
              simp [this]
            · by_cases h3 : z < y
              · simp [h2, h3] at hbc
              · have hxz : ¬ x < z := by omega
                have hzx : ¬ z < x := by omega
                simp only [h1, h4, if_neg, if_false] at hab
                simp only [h2, h3, if_neg, if_false] at hbc
                simp [hxz, hzx]
                exact ih ys zs (by simpa using hab) (by simpa using hbc)

theorem natsCmp_lt_of_lt_of_le (a : List Nat) :
    ∀ b c, natsCmp a b = .lt → natsCmp b c ≠ .gt → natsCmp a c = .lt := by
  induction a with
  | nil =>
    intro b c hab hbc
    cases b with
    | nil => simp [natsCmp] at hab
    | cons y ys => cases c with
      | nil => simp [natsCmp] at hbc
      | cons z zs => simp [natsCmp]
  | cons x xs ih =>
    intro b c hab hbc
    cases b with
    | nil => simp [natsCmp] at hab
    | cons y ys =>
      cases c with
      | nil => simp [natsCmp] at hbc
      | cons z zs =>
        simp only [natsCmp] at hab hbc ⊢
        by_cases h1 : x < y
        · by_cases h2 : y < z
          · have : x < z := by omega
            simp [this]
          · by_cases h3 : z < y
            · simp [h2, h3] at hbc
            · have : x < z := by omega
              simp [this]
        · by_cases h4 : y < x
          · simp [h1, h4] at hab
          · by_cases h2 : y < z
            · have : x < z := by omega
              simp [this]
            · by_cases h3 : z < y
              · simp [h2, h3] at hbc
              · have hxz : ¬ x < z := by omega
                have hzx : ¬ z < x := by omega
                simp only [h1, h4, if_neg, if_false] at hab
                simp only [h2, h3, if_neg, if_false] at hbc
                simp only [hxz, hzx, if_neg, if_false]
                exact ih ys zs (by simpa using hab) (by simpa using hbc)

theorem localeCmp_swap (a b : String) : localeCmp b a = (localeCmp a b).swap := by
  unfold localeCmp
  rw [natsCmp_swap (a.data.map foldChar), natsCmp_swap (a.data.map Char.toNat), then_swap]

theorem localeCmp_le_trans {a b c : String}
    (hab : localeCmp a b ≠ .gt) (hbc : localeCmp b c ≠ .gt) : localeCmp a c ≠ .gt := by
  unfold localeCmp at hab hbc ⊢
  rw [then_ne_gt] at hab hbc ⊢
  rcases hab with hab | ⟨hab1, hab2⟩
  · rcases hbc with hbc | ⟨hbc1, hbc2⟩
    · exact Or.inl (natsCmp_lt_of_lt_of_le _ _ _ hab (by simp [hbc]))
    · have heq := (natsCmp_eq_iff _ _).mp hbc1
      exact Or.inl (by rw [← heq]; exact hab)
  · rcases hbc with hbc | ⟨hbc1, hbc2⟩
    · have heq := (natsCmp_eq_iff _ _).mp hab1
      exact Or.inl (by rw [heq]; exact hbc)
    · have h1 := (natsCmp_eq_iff _ _).mp hab1
      have h2 := (natsCmp_eq_iff _ _).mp hbc1
      refine Or.inr ⟨(natsCmp_eq_iff _ _).mpr (h1.trans h2), ?_⟩
      exact natsCmp_le_trans _ _ _ hab2 hbc2

theorem intCmp_swap (a b : Int) : intCmp b a = (intCmp a b).swap := by
  unfold intCmp
  split_ifs <;> first | rfl | omega

theorem intCmp_lt_iff {a b : Int} : intCmp a b = .lt ↔ a < b := by
  unfold intCmp
  split_ifs <;> simp <;> omega

theorem intCmp_eq_iff {a b : Int} : intCmp a b = .eq ↔ a = b := by
  unfold intCmp
  split_ifs <;> simp <;> omega

theorem specLE_eq_true_iff {a b : SpecEntry} : specLE a b = true ↔ specCmp a b ≠ .gt := by
  unfold specLE
  cases h : specCmp a b <;> simp [h]

theorem specLE_iff {a b : SpecEntry} :
    specLE a b = true ↔
      (b.priority < a.priority ∨
        (a.priority = b.priority ∧ localeCmp a.label b.label ≠ .gt)) := by
  rw [specLE_eq_true_iff]
  unfold specCmp
  rw [then_ne_gt, intCmp_lt_iff, intCmp_eq_iff]
  constructor
  · rintro (h | ⟨h1, h2⟩)
    · exact Or.inl h
    · exact Or.inr ⟨h1.symm, h2⟩
  · rintro (h | ⟨h1, h2⟩)
    · exact Or.inl h
    · exact Or.inr ⟨h1.symm, h2⟩

theorem specLE_total (a b : SpecEntry) : specLE a b = true ∨ specLE b a = true := by
  rw [specLE_eq_true_iff, specLE_eq_true_iff]
  have hs : specCmp b a = (specCmp a b).swap := by
    unfold specCmp
    rw [intCmp_swap, localeCmp_swap, then_swap]
  cases h : specCmp a b <;> simp [hs, h, Ordering.swap]

theorem specLE_trans {a b c : SpecEntry}
    (hab : specLE a b = true) (hbc : specLE b c = true) : specLE a c = true := by
  rw [specLE_iff] at hab hbc ⊢
  rcases hab with hab | ⟨hab1, hab2⟩
  · rcases hbc with hbc | ⟨hbc1, hbc2⟩
    · exact Or.inl (by omega)
    · exact Or.inl (by omega)
  · rcases hbc with hbc | ⟨hbc1, hbc2⟩
    · exact Or.inl (by omega)
    · exact Or.inr ⟨by omega, localeCmp_le_trans hab2 hbc2⟩

theorem mem_insertSpec {x z : SpecEntry} : ∀ {l}, z ∈ insertSpec x l ↔ z = x ∨ z ∈ l := by
  intro l
  induction l with
  | nil => simp [insertSpec]
  | cons y ys ih =>
    simp only [insertSpec]
    split
    · simp [List.mem_cons]
    · simp only [List.mem_cons, ih]
      tauto

theorem insertSpec_perm (x : SpecEntry) : ∀ l, List.Perm (insertSpec x l) (x :: l) := by
  intro l
  induction l with
  | nil => rfl
  | cons y ys ih =>
    simp only [insertSpec]
    split
    · exact List.Perm.refl _
    · exact (List.Perm.cons y ih).trans (List.Perm.swap x y ys)

theorem sortSpecs_perm : ∀ l, List.Perm (sortSpecs l) l := by
  intro l
  induction l with
  | nil => rfl
  | cons x xs ih => exact (insertSpec_perm x (sortSpecs xs)).trans (List.Perm.cons x ih)

theorem insertSpec_pairwise {x : SpecEntry} :
    ∀ {l}, l.Pairwise (fun a b => specLE a b = true) →
      (insertSpec x l).Pairwise (fun a b => specLE a b = true) := by
  intro l
  induction l with
  | nil => intro _; simp [insertSpec]
  | cons y ys ih =>
    intro h
    rcases List.pairwise_cons.mp h with ⟨hy, hys⟩
    simp only [insertSpec]
    split
    · rename_i hxy
      refine List.pairwise_cons.mpr ⟨?_, h⟩
      intro z hz
      rcases List.mem_cons.mp hz with rfl | hz
      · exact hxy
      · exact specLE_trans hxy (hy z hz)
    · rename_i hxy
      have hyx : specLE y x = true := by
        rcases specLE_total x y with h' | h'
        · exact absurd h' hxy
        · exact h'
      refine List.pairwise_cons.mpr ⟨?_, ih hys⟩
      intro z hz
      rcases mem_insertSpec.mp hz with rfl | hz
      · exact hyx
      · exact hy z hz

theorem sortSpecs_pairwise : ∀ l, (sortSpecs l).Pairwise (fun a b => specLE a b = true) := by
  intro l
  induction l with
  | nil => simp [sortSpecs]
  | cons x xs ih => exact insertSpec_pairwise ih

/-! ## Dedup lemmas for `runAddSpecs` -/

theorem runAddSpecs_filter_of_seen {k : String} :
    ∀ (rs : List SpecReq) (specs : List SpecEntry) (seen : List String), k ∈ seen →
      (runAddSpecs specs seen rs).filter (fun s => jsToLower s.label == k)
        = specs.filter (fun s => jsToLower s.label == k) := by
  intro rs
  induction rs with
  | nil => intro specs seen _; rfl
  | cons r rs ih =>
    intro specs seen hk
    simp only [runAddSpecs]
    split
    · exact ih specs seen hk
    · split
      · exact ih specs seen hk
      · rename_i hseen
        have hne : (jsToLower r.label == k) = false := by
          simp only [beq_eq_false_iff_ne, ne_eq]
          intro hcontra
          exact hseen (hcontra ▸ hk)
        rw [ih _ _ (List.mem_cons_of_mem _ hk)]
        rw [List.filter_append]
        simp [hne]

theorem runAddSpecs_filter_firstWriter {k : String} :
    ∀ (rs : List SpecReq) (specs : List SpecEntry) (seen : List String),
      k ∉ seen → specs.filter (fun s => jsToLower s.label == k) = [] →
      (runAddSpecs specs seen rs).filter (fun s => jsToLower s.label == k)
        = (firstWriter rs k).elim [] (fun r => [mkSpec r]) := by
  intro rs
  induction rs with
  | nil =>
    intro specs seen _ hfil
    simp [runAddSpecs, firstWriter, List.find?, hfil]
  | cons r rs ih =>
    intro specs seen hk hfil
    simp only [runAddSpecs]
    by_cases hf : jsFalsy r.value = true
    · rw [if_pos hf]
      have : firstWriter (r :: rs) k = firstWriter rs k := by
        simp [firstWriter, List.find?, hf]
      rw [this]
      exact ih specs seen hk hfil
    · rw [if_neg hf]
      by_cases hs : jsToLower r.label ∈ seen
      · rw [if_pos hs]
        have hne : (jsToLower r.label == k) = false := by
          simp only [beq_eq_false_iff_ne, ne_eq]
          intro hcontra
          exact hk (hcontra ▸ hs)
        have : firstWriter (r :: rs) k = firstWriter rs k := by
          simp [firstWriter, List.find?, hne]
        rw [this]
        exact ih specs seen hk hfil
      · rw [if_neg hs]
        by_cases heq : jsToLower r.label = k
        · have hpred : (jsToLower r.label == k && !jsFalsy r.value) = true := by
            simp [heq, hf]
          have hfw : firstWriter (r :: rs) k = some r := by
            simp [firstWriter, List.find?, hpred]
          rw [hfw]
          rw [runAddSpecs_filter_of_seen rs _ _ (by simp [heq])]
          rw [List.filter_append, hfil]
          simp [mkSpec, heq]
        · have hne : (jsToLower r.label == k) = false := by simp [heq]
          have : firstWriter (r :: rs) k = firstWriter rs k := by
            simp [firstWriter, List.find?, hne]
          rw [this]
          refine ih _ _ (by simp [hk, Ne.symm]; intro hc; exact heq hc.symm) ?_
          rw [List.filter_append, hfil]
          simp [hne]

/-! ## Supporting lemmas for the error analysis -/

theorem isStr_jstr {v : JVal} (h : isStr v = true) : ∃ s, v = .jstr s := by
  cases v <;> simp [isStr] at h ⊢

theorem capNames_isOk : ∀ {xs : List JVal}, xs.all isStr = true → ∃ ns, capNames xs = .ok ns := by
  intro xs
  induction xs with
  | nil => intro _; exact ⟨[], rfl⟩
  | cons x xs ih =>
    intro h
    simp only [List.all_cons, Bool.and_eq_true] at h
    obtain ⟨s, rfl⟩ := isStr_jstr h.1
    obtain ⟨ns, hns⟩ := ih h.2
    exact ⟨jsUpperFirst s :: ns, by simp [capNames, hns, Except.map]⟩

theorem setTypReqs_isOk {payload : JVal}
    (h : jsTruthy (setTypVal payload) = true → isStr (setTypVal payload) = true) :
    ∃ l, setTypReqs payload = .ok l := by
  unfold setTypReqs
  by_cases ht : jsTruthy (setTypVal payload) = true
  · obtain ⟨s, hs⟩ := isStr_jstr (h ht)
    have ht2 : jsTruthy (JVal.jstr s) = true := hs ▸ ht
    exact ⟨_, by simp only [hs, ht2, if_true]; rfl⟩
  · exact ⟨[], by simp only [Bool.not_eq_true] at ht; simp [ht]⟩

theorem erkannteReqs_isOk {payload : JVal}
    (h : jsLengthGtZero (erkannteVal payload) = true → isStrList (erkannteVal payload) = true) :
    ∃ l, erkannteReqs payload = .ok l := by
  unfold erkannteReqs
  by_cases hl : (jsTruthy (erkannteVal payload) && jsLengthGtZero (erkannteVal payload)) = true
  · have hlen : jsLengthGtZero (erkannteVal payload) = true :=
      (Bool.and_eq_true _ _).mp hl |>.2
    have hsl := h hlen
    cases hv : erkannteVal payload with
    | jarr xs =>
        have hall : xs.all isStr = true := by
          have := hsl
          rw [hv] at this
          simpa [isStrList] using this
        obtain ⟨ns, hns⟩ := capNames_isOk hall
        have hl2 : (jsTruthy (JVal.jarr xs) && jsLengthGtZero (JVal.jarr xs)) = true :=
          hv ▸ hl
        exact ⟨_, by simp only [hv, hl2, if_true, hns, Except.map]; rfl⟩
    | jnull => rw [hv] at hsl; simp [isStrList] at hsl
    | jbool b => rw [hv] at hsl; simp [isStrList] at hsl
    | jnum n => rw [hv] at hsl; simp [isStrList] at hsl
    | jstr str => rw [hv] at hsl; simp [isStrList] at hsl
    | jobj fs => rw [hv] at hsl; simp [isStrList] at hsl
  · exact ⟨[], by simp only [Bool.not_eq_true] at hl; simp [hl]⟩

theorem setRequests_isOk {payload : JVal}
    (h2 : jsTruthy (setTypVal payload) = true → isStr (setTypVal payload) = true)
    (h3 : jsLengthGtZero (erkannteVal payload) = true → isStrList (erkannteVal payload) = true) :
    ∃ l, setRequests payload = .ok l := by
  unfold setRequests
  by_cases hb : setBranchOn payload = true
  · obtain ⟨t, ht⟩ := setTypReqs_isOk h2
    obtain ⟨e, he⟩ := erkannteReqs_isOk h3
    refine ⟨t ++ e ++ gesamtReqs payload ++ kompReqs payload, ?_⟩
    simp only [hb, Bool.not_true, Bool.false_eq_true, if_false]
    rw [ht, he]
    rfl
  · simp only [Bool.not_eq_true] at hb
    exact ⟨[], by simp [hb]⟩

/-! ## Claim theorems: specification normalizer -/

/-- C1: in every normalization run, for every case-folded label key `k`,
the returned list holds exactly the entries `firstWriter` dictates: none
when no field wrote `k`, and exactly one — carrying the value and priority
of the first field (in the fixed extraction order) with a non-falsy value
that normalizes to `k` — otherwise.  Later fields with the same
case-insensitive label never replace it, whatever their priority. -/
theorem C1_spec_dedup (product payload : JVal) (reqs : List SpecReq)
    (specs : List SpecEntry) (k : String)
    (hr : allRequests product payload = .ok reqs)
    (he : extractAllTechnicalSpecs product payload = .ok specs) :
    specs.filter (fun s => jsToLower s.label == k)
      = (firstWriter reqs k).elim [] (fun r => [mkSpec r]) := by
  unfold extractAllTechnicalSpecs at he
  rw [hr] at he
  simp only [Except.map] at he
  injection he with he
  have hperm := (sortSpecs_perm (runAddSpecs [] [] reqs)).filter
    (fun s => jsToLower s.label == k)
  have hbase := runAddSpecs_filter_firstWriter (k := k) reqs [] [] (by simp) rfl
  rw [he] at hperm
  cases hfw : firstWriter reqs k with
  | none =>
      rw [hfw] at hbase
      simp only [Option.elim] at hbase ⊢
      rw [hbase] at hperm
      exact List.Perm.eq_nil hperm
  | some r =>
      rw [hfw] at hbase
      simp only [Option.elim] at hbase ⊢
      rw [hbase] at hperm
      exact List.perm_singleton.mp hperm

/-- C1 witness: at `dedupPayload`, the label `Schutzklasse` is produced
once, with the value `IP65` of the first writer (the priority-5 block),
not `IP66` of the later `sicherheit` block. -/
theorem C1_spec_dedup_witness :
    (([⟨"Schutzklasse", "IP65", 5⟩] : List SpecEntry).filter
        (fun s => jsToLower s.label == "schutzklasse"))
      = (firstWriter ((allRequests (.jobj []) dedupPayload).toOption.getD [])
          "schutzklasse").elim [] (fun r => [mkSpec r]) :=
  C1_spec_dedup (.jobj []) dedupPayload _ _ "schutzklasse" rfl (by decide)

/-- C2: every list returned by the normalizer is sorted so that each
adjacent pair has strictly descending priority or equal priority and
locale-compare-nondescending labels. -/
theorem C2_spec_ordering (product payload : JVal) (specs : List SpecEntry)
    (he : extractAllTechnicalSpecs product payload = .ok specs) :
    specs.Chain' (fun a b => b.priority < a.priority ∨
      (a.priority = b.priority ∧ localeCmp a.label b.label ≠ .gt)) := by
  unfold extractAllTechnicalSpecs at he
  cases hr : allRequests product payload with
  | error e => rw [hr] at he; simp [Except.map] at he
  | ok reqs =>
      rw [hr] at he
      simp only [Except.map] at he
      injection he with he
      have hp := sortSpecs_pairwise (runAddSpecs [] [] reqs)
      have hp2 := hp.imp (fun hab => specLE_iff.mp hab)
      exact he ▸ hp2.chain'

/-- C2 witness: the §8.6 example output satisfies the adjacency ordering. -/
theorem C2_spec_ordering_witness :
    ([⟨"BMS (Batterie-Management)", "Ja", 10⟩,
      ⟨"Kapazität (kWh)", "5 kWh", 10⟩] : List SpecEntry).Chain'
      (fun a b => b.priority < a.priority ∨
        (a.priority = b.priority ∧ localeCmp a.label b.label ≠ .gt)) :=
  C2_spec_ordering batterieProduct batteriePayload _ (by decide)

/-- C3: on `{produkttyp:"batterie"}` with
`{batterie_spezifikationen:{kapazitaet_kwh:5, bms:true}}` the normalizer
returns exactly the entries `Kapazität (kWh) = 5 kWh` and
`BMS (Batterie-Management) = Ja`, both at priority 10, with the BMS entry
first. -/
theorem C3_batterie_example :
    extractAllTechnicalSpecs batterieProduct batteriePayload =
      .ok [⟨"BMS (Batterie-Management)", "Ja", 10⟩,
           ⟨"Kapazität (kWh)", "5 kWh", 10⟩] := by
  decide

/-- C4 counterexample: the claim "never throws and null values are
silently skipped" fails twice.  A payload with a truthy non-string
`set_typ_detail` makes the source throw a TypeError at `setTyp.replace`,
and `{vollstaendig: null}` produces the entry `Vollständig: Nein` because
the source only tests `!== undefined` there. -/
theorem C4_counterexample :
    extractAllTechnicalSpecs (.jobj [])
        (.jobj [("ist_set", .jbool true), ("set_typ_detail", .jnum 42)])
      = .error "TypeError: setTyp.replace is not a function" ∧
    extractAllTechnicalSpecs (.jobj []) (.jobj [("vollstaendig", .jnull)])
      = .ok [⟨"Vollständig", "Nein", 0⟩] :=
  ⟨by decide, by decide⟩

/-- C4 (amended): the extractor returns a list (never throws) whenever the
product/payload are records, the category value is a string when truthy,
the set-type value is a string when truthy, and the recognized-component
types are a string array when of positive length; and a falsy
(null/undefined/empty-string) value is always skipped by the spec-adding
fold, producing no entry — the sole exception being the top-level
`vollstaendig` field, whose present-but-null value renders `Nein` (see the
counterexample). -/
theorem C4_never_throws_amended (product payload : JVal)
    (hp : isNull product = false) (hq : isNull payload = false)
    (h1 : isStr (jsOr (jsGetD product "produkttyp") (.jstr "")) = true)
    (h2 : jsTruthy (setTypVal payload) = true → isStr (setTypVal payload) = true)
    (h3 : jsLengthGtZero (erkannteVal payload) = true → isStrList (erkannteVal payload) = true) :
    (extractAllTechnicalSpecs product payload).isOk = true ∧
    ∀ (specs : List SpecEntry) (seen : List String) (r : SpecReq) (rs : List SpecReq),
      jsFalsy r.value = true →
      runAddSpecs specs seen (r :: rs) = runAddSpecs specs seen rs := by
  constructor
  · obtain ⟨s, hs⟩ := isStr_jstr h1
    obtain ⟨l, hl⟩ := setRequests_isOk h2 h3
    have hpt : produkttypOf product = .ok (jsToLower s) := by
      unfold produkttypOf
      rw [hs]
    have hall : ∃ rr, allRequests product payload = .ok rr := by
      unfold allRequests
      simp only [hp, hq, Bool.or_self, if_false, hpt, hl]
      exact ⟨_, rfl⟩
    obtain ⟨rr, hrr⟩ := hall
    unfold extractAllTechnicalSpecs
    rw [hrr]
    rfl
  · intro specs seen r rs h
    simp [runAddSpecs, h]

/-- C4 witness: a plain record payload satisfies the amended hypotheses. -/
theorem C4_never_throws_witness :
    (extractAllTechnicalSpecs (.jobj [])
        (.jobj [("qualitaet", .jstr "hoch")])).isOk = true ∧
    ∀ (specs : List SpecEntry) (seen : List String) (r : SpecReq) (rs : List SpecReq),
      jsFalsy r.value = true →
      runAddSpecs specs seen (r :: rs) = runAddSpecs specs seen rs :=
  C4_never_throws_amended (.jobj []) (.jobj [("qualitaet", .jstr "hoch")])
    (by decide) (by decide) (by decide) (by decide) (by decide)

/-- C10: the generic field extractor never produces a request for a key
that starts with an underscore or equals `quelle`: deleting such an entry
from the walked object leaves the extractor's output unchanged, for every
mapping, priority band and label prefix. -/
theorem C10_internal_keys_skipped (mapping : List (String × String)) (prio : Int)
    (pfx : String) (pre post : List (String × JVal)) (k : String) (v : JVal)
    (h : strStarts k "_" = true ∨ k = "quelle") :
    fieldReqs mapping prio pfx (.jobj (pre ++ (k, v) :: post))
      = fieldReqs mapping prio pfx (.jobj (pre ++ post)) := by
  have hk : entryReq mapping prio pfx (k, v) = none := by
    unfold entryReq
    rcases h with h | h
    · by_cases hn : isNullOrEmptyStr v = true
      · simp [hn]
      · simp only [Bool.not_eq_true] at hn
        simp [hn, h]
    · subst h
      by_cases hn : isNullOrEmptyStr v = true
      · simp [hn]
      · simp only [Bool.not_eq_true] at hn
        simp [hn]
  simp [fieldReqs, jsTruthy, jsFalsy, isObjLike, jsEntries, List.filterMap_append, hk]

/-- C10 witness: a concrete object with an underscore key. -/
theorem C10_internal_keys_witness :
    fieldReqs [] 8 "" (.jobj [("a", .jstr "x"), ("_intern", .jnum 3)])
      = fieldReqs [] 8 "" (.jobj [("a", .jstr "x")]) :=
  C10_internal_keys_skipped [] 8 "" [("a", .jstr "x")] [] "_intern" (.jnum 3)
    (Or.inl (by decide))

/-! ## Markup renderer lemmas -/

theorem splitFence_ne_nil : ∀ l, splitFence l ≠ [] := by
  intro l
  induction l using splitFence.induct with
  | case1 => simp [splitFence]
  | case2 rest ih => simp [splitFence]
  | case3 c rest h ih =>
      rw [splitFence]
      · cases hs : splitFence rest <;> simp [consOnHead]
      · exact h

theorem splitNL_ne_nil : ∀ l, splitNL l ≠ [] := by
  intro l
  induction l with
  | nil => simp [splitNL]
  | cons c rest ih =>
      simp only [splitNL]
      split
      · simp
      · cases hs : splitNL rest <;> simp [consOnHead]

theorem splitNL_cons_ne {c : Char} (h : ¬ c = '\n') (rest : List Char) :
    splitNL (c :: rest) = consOnHead c (splitNL rest) := by
  simp [splitNL, h]

theorem splitNL_no_newline : ∀ {l : List Char}, '\n' ∉ l → splitNL l = [l] := by
  intro l
  induction l with
  | nil => intro _; rfl
  | cons c rest ih =>
      intro h
      have hc : ¬ c = '\n' := fun hc => h (hc ▸ List.mem_cons_self c rest)
      rw [splitNL_cons_ne hc, ih (fun hm => h (List.mem_cons_of_mem c hm))]
      rfl

theorem joinNL_cons {l : List Char} {ls : List (List Char)} (h : ls ≠ []) :
    joinNL (l :: ls) = l ++ '\n' :: joinNL ls := by
  cases ls with
  | nil => exact absurd rfl h
  | cons a as => rfl

theorem splitFence_cons_ne {c : Char} (h : ¬ c = '\x60') (rest : List Char) :
    splitFence (c :: rest) = consOnHead c (splitFence rest) := by
  rw [splitFence]
  intro a hb _
  exact h hb

theorem splitFence_no_bt : ∀ {l : List Char}, '\x60' ∉ l → splitFence l = [l] := by
  intro l
  induction l with
  | nil => intro _; rfl
  | cons c rest ih =>
      intro h
      have hc : ¬ c = '\x60' := fun hc => h (hc ▸ List.mem_cons_self c rest)
      rw [splitFence_cons_ne hc, ih (fun hm => h (List.mem_cons_of_mem c hm))]
      rfl

theorem splitFence_append_fence : ∀ {m : List Char}, '\x60' ∉ m → ∀ r,
    splitFence (m ++ '\x60' :: '\x60' :: '\x60' :: r) = m :: splitFence r := by
  intro m
  induction m with
  | nil => intro _ r; rfl
  | cons c m' ih =>
      intro h r
      have hc : ¬ c = '\x60' := fun hc => h (hc ▸ List.mem_cons_self c m')
      rw [List.cons_append, splitFence_cons_ne hc,
        ih (fun hm => h (List.mem_cons_of_mem c hm)) r]
      rfl

theorem inlineCodeF_append : ∀ (p : List Char) (n : Nat) (r : List Char),
    (∀ ch ∈ p, ch ≠ '\x60') →
    inlineCodeF (p.length + n) (p ++ r) = p ++ inlineCodeF n r := by
  intro p
  induction p with
  | nil => intro n r _; simp
  | cons c p' ih =>
      intro n r h
      have hc : ¬ c = '\x60' := h c (List.mem_cons_self c p')
      have hfuel : (c :: p').length + n = (p'.length + n) + 1 := by
        simp only [List.length_cons]
        omega
      rw [hfuel]
      simp only [List.cons_append, inlineCodeF, hc, if_false]
      exact congrArg (c :: ·) (ih n r (fun ch hm => h ch (List.mem_cons_of_mem c hm)))

theorem inlineCodeF_inert : ∀ (l : List Char), '\x60' ∉ l → ∀ n, l.length ≤ n →
    inlineCodeF n l = l := by
  intro l
  induction l with
  | nil => intro _ n _; cases n <;> rfl
  | cons c rest ih =>
      intro h n hlen
      cases n with
      | zero => simp [List.length_cons] at hlen
      | succ k =>
          have hc : ¬ c = '\x60' := fun hc => h (hc ▸ List.mem_cons_self c rest)
          simp only [inlineCodeF, hc, if_false]
          rw [ih (fun hm => h (List.mem_cons_of_mem c hm)) k
            (by simp [List.length_cons] at hlen; omega)]

theorem linkF_append : ∀ (p : List Char) (n : Nat) (r : List Char),
    (∀ ch ∈ p, ch ≠ '[') →
    linkF (p.length + n) (p ++ r) = p ++ linkF n r := by
  intro p
  induction p with
  | nil => intro n r _; simp
  | cons c p' ih =>
      intro n r h
      have hc : ¬ c = '[' := h c (List.mem_cons_self c p')
      have hfuel : (c :: p').length + n = (p'.length + n) + 1 := by
        simp only [List.length_cons]
        omega
      rw [hfuel]
      simp only [List.cons_append, linkF, hc, if_false]
      exact congrArg (c :: ·) (ih n r (fun ch hm => h ch (List.mem_cons_of_mem c hm)))

theorem linkF_inert : ∀ (l : List Char), '[' ∉ l → ∀ n, l.length ≤ n →
    linkF n l = l := by
  intro l
  induction l with
  | nil => intro _ n _; cases n <;> rfl
  | cons c rest ih =>
      intro h n hlen
      cases n with
      | zero => simp [List.length_cons] at hlen
      | succ k =>
          have hc : ¬ c = '[' := fun hc => h (hc ▸ List.mem_cons_self c rest)
          simp only [linkF, hc, if_false]
          rw [ih (fun hm => h (List.mem_cons_of_mem c hm)) k
            (by simp [List.length_cons] at hlen; omega)]

theorem boldF_append (m : Char) : ∀ (p : List Char) (n : Nat) (r : List Char),
    (∀ ch ∈ p, ch ≠ m) →
    boldF m (p.length + n) (p ++ r) = p ++ boldF m n r := by
  intro p
  induction p with
  | nil => intro n r _; simp
  | cons c p' ih =>
      intro n r h
      have hc : ¬ c = m := h c (List.mem_cons_self c p')
      have hfuel : (c :: p').length + n = (p'.length + n) + 1 := by
        simp only [List.length_cons]
        omega
      rw [hfuel]
      simp only [List.cons_append, boldF, hc, if_false]
      exact congrArg (c :: ·) (ih n r (fun ch hm => h ch (List.mem_cons_of_mem c hm)))

theorem boldF_inert (m : Char) : ∀ (l : List Char), m ∉ l → ∀ n, l.length ≤ n →
    boldF m n l = l := by
  intro l
  induction l with
  | nil => intro _ n _; cases n <;> rfl
  | cons c rest ih =>
      intro h n hlen
      cases n with
      | zero => simp [List.length_cons] at hlen
      | succ k =>
          have hc : ¬ c = m := fun hc => h (hc ▸ List.mem_cons_self c rest)
          simp only [boldF, hc, if_false]
          rw [ih (fun hm => h (List.mem_cons_of_mem c hm)) k
            (by simp [List.length_cons] at hlen; omega)]

theorem italF_append (m : Char) : ∀ (p : List Char) (n : Nat) (b : Bool) (r : List Char),
    (∀ ch ∈ p, ch ≠ m) →
    italF m (p.length + n) b (p ++ r)
      = p ++ italF m n (if p.isEmpty then b else false) r := by
  intro p
  induction p with
  | nil => intro n b r _; simp
  | cons c p' ih =>
      intro n b r h
      have hc : ¬ c = m := h c (List.mem_cons_self c p')
      have hcb : (c == m) = false := by simp [hc]
      have hfuel : (c :: p').length + n = (p'.length + n) + 1 := by
        simp only [List.length_cons]
        omega
      rw [hfuel]
      simp only [List.cons_append, italF, hc, if_false, hcb]
      have h2 := ih n false r (fun ch hm => h ch (List.mem_cons_of_mem c hm))
      have h3 : (if p'.isEmpty = true then false else false) = false := by
        cases p'.isEmpty <;> rfl
      rw [h3] at h2
      simp only [List.isEmpty_cons, Bool.false_eq_true, if_false]
      exact congrArg (c :: ·) h2

theorem italF_inert (m : Char) : ∀ (l : List Char), m ∉ l → ∀ n (b : Bool), l.length ≤ n →
    italF m n b l = l := by
  intro l
  induction l with
  | nil => intro _ n b _; cases n <;> rfl
  | cons c rest ih =>
      intro h n b hlen
      cases n with
      | zero => simp [List.length_cons] at hlen
      | succ k =>
          have hc : ¬ c = m := fun hc => h (hc ▸ List.mem_cons_self c rest)
          have hcb : (c == m) = false := by simp [hc]
          simp only [italF, hc, if_false, hcb]
          rw [ih (fun hm => h (List.mem_cons_of_mem c hm)) k _
            (by simp [List.length_cons] at hlen; omega)]

theorem brDrop_ne_one {c : Char} (h : ¬ c = '<') (rest : List Char) :
    brDrop (c :: rest) = none := by
  unfold brDrop
  split
  · rename_i heq
    injection heq with h1 _
    exact absurd h1 h
  · rfl

theorem brDrop_ne_two {c1 c2 : Char} (h : ¬ (c1 = '<' ∧ c2 = 'b')) (rest : List Char) :
    brDrop (c1 :: c2 :: rest) = none := by
  unfold brDrop
  split
  · rename_i heq
    injection heq with h1 heq2
    injection heq2 with h2 _
    exact absurd ⟨h1, h2⟩ h
  · rfl

theorem brRunF_none {l : List Char} (h : brDrop l = none) : ∀ n, brRunF n l = (0, l) := by
  intro n
  cases n with
  | zero => rfl
  | succ k => simp [brRunF, h]

theorem collapseF_cons_none {c : Char} {rest : List Char}
    (h : brDrop (c :: rest) = none) (n : Nat) :
    collapseF (n + 1) (c :: rest) = c :: collapseF n rest := by
  simp [collapseF, brRunF_none h]

/-- `p` cannot start a `<br>` unit at any of its positions, whatever
follows it. -/
def brSafePre : List Char → Bool
  | [] => true
  | [c] => c != '<'
  | c1 :: c2 :: rest => !(c1 == '<' && c2 == 'b') && brSafePre (c2 :: rest)

theorem collapseF_append_brSafe : ∀ (p : List Char), brSafePre p = true → ∀ n r,
    collapseF (p.length + n) (p ++ r) = p ++ collapseF n r := by
  intro p
  induction p with
  | nil => intro _ n r; simp
  | cons c p' ih =>
      intro hs n r
      cases p' with
      | nil =>
          have hc : ¬ c = '<' := by simpa [brSafePre] using hs
          have hfuel : ([c].length + n) = n + 1 := by simp; omega
          rw [hfuel, List.cons_append, List.nil_append,
            collapseF_cons_none (brDrop_ne_one hc r)]
          simp
      | cons c2 p'' =>
          have hsp : (¬c = '<' ∨ ¬c2 = 'b') ∧ brSafePre (c2 :: p'') = true := by
            simpa [brSafePre] using hs
          have hc : ¬ (c = '<' ∧ c2 = 'b') := by tauto
          have hnone : brDrop (c :: ((c2 :: p'') ++ r)) = none := brDrop_ne_two hc _
          have hfuel : ((c :: c2 :: p'').length + n) = (((c2 :: p'').length + n) + 1) := by
            simp only [List.length_cons]
            omega
          rw [hfuel, List.cons_append, collapseF_cons_none hnone, ih hsp.2 n r]
          simp

theorem brSafePre_of_no_lt : ∀ {p : List Char}, (∀ ch ∈ p, ch ≠ '<') → brSafePre p = true := by
  intro p
  induction p with
  | nil => intro _; rfl
  | cons c p' ih =>
      intro h
      cases p' with
      | nil => simpa [brSafePre] using h c (List.mem_cons_self c [])
      | cons c2 p'' =>
          have h1 : ¬ c = '<' := h c (List.mem_cons_self _ _)
          have h2 := ih (fun ch hm => h ch (List.mem_cons_of_mem c hm))
          simp [brSafePre, h2, h1]

theorem stripTagsF_inert : ∀ (l : List Char), '<' ∉ l → ∀ n, l.length ≤ n →
    stripTagsF n l = l := by
  intro l
  induction l with
  | nil => intro _ n _; cases n <;> rfl
  | cons c rest ih =>
      intro h n hlen
      cases n with
      | zero => simp [List.length_cons] at hlen
      | succ k =>
          have hc : ¬ c = '<' := fun hc => h (hc ▸ List.mem_cons_self c rest)
          simp only [stripTagsF, hc, if_false]
          rw [ih (fun hm => h (List.mem_cons_of_mem c hm)) k
            (by simp [List.length_cons] at hlen; omega)]

theorem splitNL_mem : ∀ {x p : List Char}, p ∈ splitNL x → ∀ c ∈ p, c ∈ x := by
  intro x
  induction x with
  | nil =>
      intro p hp c hc
      simp only [splitNL, List.mem_singleton] at hp
      subst hp
      simp at hc
  | cons a rest ih =>
      intro p hp c hc
      by_cases ha : a = '\n'
      · subst ha
        simp only [splitNL, if_pos rfl] at hp
        rcases List.mem_cons.mp hp with rfl | hp
        · simp at hc
        · exact List.mem_cons_of_mem _ (ih hp c hc)
      · rw [splitNL_cons_ne ha] at hp
        cases hs : splitNL rest with
        | nil => exact absurd hs (splitNL_ne_nil rest)
        | cons q qs =>
            rw [hs] at hp
            simp only [consOnHead] at hp
            rcases List.mem_cons.mp hp with rfl | hp
            · rcases List.mem_cons.mp hc with rfl | hc2
              · exact List.mem_cons_self _ _
              · exact List.mem_cons_of_mem _ (ih (hs ▸ List.mem_cons_self q qs) c hc2)
            · exact List.mem_cons_of_mem _ (ih (hs ▸ List.mem_cons_of_mem q hp) c hc)

theorem wsContent_mem {r2 content : List Char} (h : wsContent r2 = some content) :
    ∀ ch ∈ content, ch ∈ r2 ∨ ch = ' ' := by
  intro ch hch
  unfold wsContent at h
  by_cases hws : (r2.takeWhile isWSChar).isEmpty = true
  · simp [hws] at h
  · simp only [hws, if_false] at h
    cases hrem : r2.dropWhile isWSChar with
    | nil =>
        rw [hrem] at h
        simp only [] at h
        by_cases h2 : 2 ≤ (r2.takeWhile isWSChar).length
        · simp only [h2, if_pos] at h
          injection h with h
          subst h
          simp only [List.mem_singleton] at hch
          subst hch
          have hmem := List.getLastD_mem_cons (r2.takeWhile isWSChar) ' '
          rcases List.mem_cons.mp hmem with he | hm
          · exact Or.inr he
          · exact Or.inl ((List.takeWhile_sublist _).subset hm)
        · simp [h2] at h
    | cons q qs =>
        rw [hrem] at h
        injection h with h
        subst h
        exact Or.inl ((List.dropWhile_sublist _).subset (hrem ▸ hch))

theorem headingRest_mem {marker line content : List Char}
    (h : headingRest marker line = some content) : ∀ ch ∈ content, ch ∈ line := by
  intro ch hch
  unfold headingRest at h
  by_cases hp : marker.isPrefixOf line = true
  · simp only [hp, if_pos] at h
    cases hd : line.drop marker.length with
    | nil => rw [hd] at h; simp at h
    | cons c r =>
        rw [hd] at h
        by_cases hws : isWSChar c = true
        · simp only [hws, if_pos] at h
          injection h with h
          subst h
          exact List.drop_subset _ _ (hd ▸ (List.dropWhile_sublist _).subset hch)
        · simp [hws] at h
  · simp [hp] at h

theorem bulletContent_mem {line content : List Char}
    (h : bulletContent line = some content) : ∀ ch ∈ content, ch ∈ line ∨ ch = ' ' := by
  intro ch hch
  unfold bulletContent at h
  cases hd : line.dropWhile isWSChar with
  | nil => rw [hd] at h; simp at h
  | cons c r2 =>
      rw [hd] at h
      by_cases hb : (c = '-' || c = '*') = true
      · simp only [hb, if_pos] at h
        rcases wsContent_mem h ch hch with hm | he
        · exact Or.inl ((List.dropWhile_sublist _).subset
            (hd ▸ List.mem_cons_of_mem c hm))
        · exact Or.inr he
      · simp [hb] at h

theorem numberedContent_mem {line content : List Char}
    (h : numberedContent line = some content) : ∀ ch ∈ content, ch ∈ line ∨ ch = ' ' := by
  intro ch hch
  unfold numberedContent at h
  by_cases hdg : (line.takeWhile Char.isDigit).isEmpty = true
  · simp [hdg] at h
  · simp only [hdg, if_false] at h
    cases hd : line.drop (line.takeWhile Char.isDigit).length with
    | nil => rw [hd] at h; simp at h
    | cons c r2 =>
        rw [hd] at h
        by_cases hc : c = '.'
        · subst hc
          simp only [] at h
          rcases wsContent_mem h ch hch with hm | he
          · exact Or.inl (List.drop_subset _ _ (hd ▸ List.mem_cons_of_mem _ hm))
          · exact Or.inr he
        · cases hcc : c
          simp_all

theorem lineStep_fst_ne_nil (b : Bool) (line : List Char) : (lineStep b line).1 ≠ [] := by
  unfold lineStep
  repeat' split
  all_goals cases b <;> simp

theorem processLines_ne_nil (b ic : Bool) (line : List Char) (rest : List (List Char)) :
    processLines b ic (line :: rest) ≠ [] := by
  simp only [processLines]
  split
  · simp
  · split
    · simp
    · intro hcontra
      rcases List.append_eq_nil.mp hcontra with ⟨h1, _⟩
      exact lineStep_fst_ne_nil b line h1

theorem lineStep_noBt {b : Bool} {line out : List Char}
    (hl : '\x60' ∉ line) (ho : out ∈ (lineStep b line).1) : '\x60' ∉ out := by
  have hclose : ∀ x ∈ (if b then [ulClose] else ([] : List (List Char))), '\x60' ∉ x := by
    intro x hx
    cases b with
    | false => simp at hx
    | true =>
        simp at hx
        subst hx
        decide
  have hopen : ∀ x ∈ (if b then ([] : List (List Char)) else ["<ul>".data]), '\x60' ∉ x := by
    intro x hx
    cases b with
    | true => simp at hx
    | false =>
        simp at hx
        subst hx
        decide
  have htag : ∀ (t1 t2 content : List Char), '\x60' ∉ t1 → '\x60' ∉ t2 →
      (∀ ch ∈ content, ch ∈ line ∨ ch = ' ') → '\x60' ∉ (t1 ++ content ++ t2) := by
    intro t1 t2 content h1 h2 hc hmem
    rcases List.mem_append.mp hmem with hm | hm
    · rcases List.mem_append.mp hm with hm2 | hm2
      · exact h1 hm2
      · rcases hc _ hm2 with hin | he
        · exact hl hin
        · exact absurd he (by decide)
    · exact h2 hm
  unfold lineStep at ho
  split at ho
  · rename_i cont h3
    rcases List.mem_append.mp ho with hx | hx
    · exact hclose _ hx
    · simp only [List.mem_singleton] at hx
      subst hx
      exact htag _ _ cont (by decide) (by decide)
        (fun ch hm => Or.inl (headingRest_mem h3 ch hm))
  · split at ho
    · rename_i cont h2
      rcases List.mem_append.mp ho with hx | hx
      · exact hclose _ hx
      · simp only [List.mem_singleton] at hx
        subst hx
        exact htag _ _ cont (by decide) (by decide)
          (fun ch hm => Or.inl (headingRest_mem h2 ch hm))
    · split at ho
      · rename_i cont h1
        rcases List.mem_append.mp ho with hx | hx
        · exact hclose _ hx
        · simp only [List.mem_singleton] at hx
          subst hx
          exact htag _ _ cont (by decide) (by decide)
            (fun ch hm => Or.inl (headingRest_mem h1 ch hm))
      · split at ho
        · rcases List.mem_append.mp ho with hx | hx
          · exact hclose _ hx
          · simp only [List.mem_singleton] at hx
            subst hx
            decide
        · split at ho
          · rename_i cont _
            rename_i hbul
            rcases List.mem_append.mp ho with hx | hx
            · exact hopen _ hx
            · simp only [List.mem_singleton] at hx
              subst hx
              exact htag _ _ cont (by decide) (by decide) (bulletContent_mem hbul)
          · rename_i cont hbul hnum
            rcases List.mem_append.mp ho with hx | hx
            · exact hopen _ hx
            · simp only [List.mem_singleton] at hx
              subst hx
              exact htag _ _ cont (by decide) (by decide) (numberedContent_mem hnum)
          · split at ho
            · rcases List.mem_append.mp ho with hx | hx
              · exact hclose _ hx
              · simp only [List.mem_singleton] at hx
                subst hx
                decide
            · rcases List.mem_append.mp ho with hx | hx
              · exact hclose _ hx
              · simp only [List.mem_singleton] at hx
                subst hx
                exact hl

theorem processLines_noBt : ∀ (L : List (List Char)) (b ic : Bool),
    (∀ line ∈ L, '\x60' ∉ line) → ∀ out ∈ processLines b ic L, '\x60' ∉ out := by
  intro L
  induction L with
  | nil =>
      intro b ic _ out ho
      simp only [processLines] at ho
      cases b with
      | false => simp at ho
      | true =>
          simp only [if_pos, List.mem_singleton] at ho
          subst ho
          decide
  | cons line rest ih =>
      intro b ic h out ho
      have hline : '\x60' ∉ line := h line (List.mem_cons_self _ _)
      have hrest : ∀ l ∈ rest, '\x60' ∉ l := fun l hl => h l (List.mem_cons_of_mem _ hl)
      simp only [processLines] at ho
      split at ho
      · rcases List.mem_cons.mp ho with rfl | ho
        · exact hline
        · exact ih b (!ic) hrest out ho
      · split at ho
        · rcases List.mem_cons.mp ho with rfl | ho
          · exact hline
          · exact ih b ic hrest out ho
        · rcases List.mem_append.mp ho with hx | hx
          · exact lineStep_noBt hline hx
          · exact ih _ ic hrest out hx

theorem joinNL_noBt : ∀ {L : List (List Char)}, (∀ l ∈ L, '\x60' ∉ l) → '\x60' ∉ joinNL L := by
  intro L
  induction L with
  | nil => intro _; simp [joinNL]
  | cons l ls ih =>
      intro h
      cases ls with
      | nil => simpa [joinNL] using h l (List.mem_cons_self _ _)
      | cons a as =>
          rw [joinNL_cons (by simp)]
          intro hm
          rcases List.mem_append.mp hm with hx | hx
          · exact h l (List.mem_cons_self _ _) hx
          · rcases List.mem_cons.mp hx with he | hx
            · exact absurd he (by decide)
            · exact ih (fun x hx2 => h x (List.mem_cons_of_mem _ hx2)) hx

theorem inlineCodeF_fence_step (n : Nat) (r : List Char) :
    inlineCodeF (n + 4) ('\x60' :: '\x60' :: '\x60' :: '\n' :: r)
      = '\x60' :: '\x60' :: '\x60' :: '\n' :: inlineCodeF n r := rfl

theorem phaseB_fence_prefix {r : List Char} (hr : '\x60' ∉ r) :
    phaseB [] ('\x60' :: '\x60' :: '\x60' :: '\n' :: r)
      = '\x60' :: '\x60' :: '\x60' :: '\n' :: phaseB [] r := by
  have hinl : inlineCode ('\x60' :: '\x60' :: '\x60' :: '\n' ::r) = '\x60' :: '\x60' :: '\x60' :: '\n' ::r := by
    show inlineCodeF (('\x60' :: '\x60' :: '\x60' :: '\n' ::r).length) _ = _
    have hl : ('\x60' :: '\x60' :: '\x60' :: '\n' ::r).length = r.length + 4 := by
      simp only [List.length_cons]
    rw [hl, inlineCodeF_fence_step, inlineCodeF_inert r hr r.length le_rfl]
  have hinr : inlineCode r = r := inlineCodeF_inert r hr r.length le_rfl
  unfold phaseB
  rw [hinl, hinr]
  have hlink : linkPass ('\x60' :: '\x60' :: '\x60' :: '\n' ::r)
      = '\x60' :: '\x60' :: '\x60' :: '\n' :: linkPass r := by
    show linkF (('\x60' :: '\x60' :: '\x60' :: '\n' ::r).length) _ = _
    have hl : ('\x60' :: '\x60' :: '\x60' :: '\n' ::r).length
        = (['\x60','\x60','\x60','\n'] : List Char).length + r.length := by
      simp only [List.length_cons, List.length_nil]
      omega
    rw [hl]
    exact linkF_append ['\x60','\x60','\x60','\n'] r.length r (by decide)
  rw [hlink]
  have hb1 : boldPass '*' ('\x60' :: '\x60' :: '\x60' :: '\n' :: linkPass r)
      = '\x60' :: '\x60' :: '\x60' :: '\n' :: boldPass '*' (linkPass r) := by
    show boldF '*' _ _ = _
    have hl : ('\x60' :: '\x60' :: '\x60' :: '\n' :: linkPass r).length
        = (['\x60','\x60','\x60','\n'] : List Char).length + (linkPass r).length := by
      simp only [List.length_cons, List.length_nil]
      omega
    rw [hl]
    exact boldF_append '*' ['\x60','\x60','\x60','\n'] (linkPass r).length (linkPass r) (by decide)
  rw [hb1]
  have hb2 : boldPass '_' ('\x60' :: '\x60' :: '\x60' :: '\n' :: boldPass '*' (linkPass r))
      = '\x60' :: '\x60' :: '\x60' :: '\n' :: boldPass '_' (boldPass '*' (linkPass r)) := by
    show boldF '_' _ _ = _
    have hl : ('\x60' :: '\x60' :: '\x60' :: '\n' :: boldPass '*' (linkPass r)).length
        = (['\x60','\x60','\x60','\n'] : List Char).length + (boldPass '*' (linkPass r)).length := by
      simp only [List.length_cons, List.length_nil]
      omega
    rw [hl]
    exact boldF_append '_' ['\x60','\x60','\x60','\n'] _ _ (by decide)
  rw [hb2]
  have hi1 : italPass '*' ('\x60' :: '\x60' :: '\x60' :: '\n' :: boldPass '_' (boldPass '*' (linkPass r)))
      = '\x60' :: '\x60' :: '\x60' :: '\n' :: italPass '*' (boldPass '_' (boldPass '*' (linkPass r))) := by
    show italF '*' _ false _ = _
    have hl : ('\x60' :: '\x60' :: '\x60' :: '\n' :: boldPass '_' (boldPass '*' (linkPass r))).length
        = (['\x60','\x60','\x60','\n'] : List Char).length
          + (boldPass '_' (boldPass '*' (linkPass r))).length := by
      simp only [List.length_cons, List.length_nil]
      omega
    rw [hl]
    have := italF_append '*' ['\x60','\x60','\x60','\n']
      (boldPass '_' (boldPass '*' (linkPass r))).length false
      (boldPass '_' (boldPass '*' (linkPass r))) (by decide)
    simpa using this
  rw [hi1]
  have hi2 : italPass '_' ('\x60' :: '\x60' :: '\x60' :: '\n' :: italPass '*' (boldPass '_' (boldPass '*' (linkPass r))))
      = '\x60' :: '\x60' :: '\x60' :: '\n' :: italPass '_' (italPass '*' (boldPass '_' (boldPass '*' (linkPass r)))) := by
    show italF '_' _ false _ = _
    have hl : ('\x60' :: '\x60' :: '\x60' :: '\n' :: italPass '*' (boldPass '_' (boldPass '*' (linkPass r)))).length
        = (['\x60','\x60','\x60','\n'] : List Char).length
          + (italPass '*' (boldPass '_' (boldPass '*' (linkPass r)))).length := by
      simp only [List.length_cons, List.length_nil]
      omega
    rw [hl]
    have := italF_append '_' ['\x60','\x60','\x60','\n']
      (italPass '*' (boldPass '_' (boldPass '*' (linkPass r)))).length false
      (italPass '*' (boldPass '_' (boldPass '*' (linkPass r)))) (by decide)
    simpa using this
  rw [hi2]
  rw [show ∀ y : List Char, reinsertCodes [] 0 y = y from fun _ => rfl,
      show ∀ y : List Char, reinsertCodes [] 0 y = y from fun _ => rfl]
  show collapsePass _ = _
  have hl : ('\x60' :: '\x60' :: '\x60' :: '\n' :: italPass '_' (italPass '*' (boldPass '_' (boldPass '*' (linkPass r))))).length
      = (['\x60','\x60','\x60','\n'] : List Char).length
        + (italPass '_' (italPass '*' (boldPass '_' (boldPass '*' (linkPass r))))).length := by
    simp only [List.length_cons, List.length_nil]
    omega
  show collapseF _ _ = _
  rw [hl]
  exact collapseF_append_brSafe ['\x60','\x60','\x60','\n'] (by decide) _ _

theorem splitNL_newline (t : List Char) : splitNL ('\n' :: t) = [] :: splitNL t := by
  simp [splitNL]

/-- C8 amended, main computation: with a single unmatched fence marker at
the start of its own line, the pipeline emits the marker literally and
processes the remainder exactly as it would process it alone. -/
theorem C8_unmatched_fence_amended (t : List Char) (h : '\x60' ∉ t) :
    markdownToHTML ⟨'\x60' :: '\x60' :: '\x60' :: '\n' :: t⟩
      = ⟨'\x60' :: '\x60' :: '\x60' :: '\n' :: mdCore t⟩ := by
  have hnb : '\x60' ∉ ('\n' :: t) := by
    intro hm
    rcases List.mem_cons.mp hm with he | hm2
    · exact absurd he (by decide)
    · exact h hm2
  have hsf : splitFence ('\x60' :: '\x60' :: '\x60' :: '\n' ::t) = [[], '\n' ::t] := by
    rw [show splitFence ('\x60' :: '\x60' :: '\x60' :: '\n' ::t)
          = [] :: splitFence ('\n' ::t) from rfl,
      splitFence_no_bt hnb]
  have hlines : splitNL ('\x60' :: '\x60' :: '\x60' :: '\n' ::t)
      = ['\x60','\x60','\x60'] :: splitNL t := by
    rw [splitNL_cons_ne (by decide), splitNL_cons_ne (by decide), splitNL_cons_ne (by decide),
      splitNL_newline]
    simp [consOnHead]
  have hproc : processLines false false (['\x60','\x60','\x60'] :: splitNL t)
      = ['\x60','\x60','\x60'] :: processLines false false (splitNL t) := by
    simp only [processLines]
    rw [show hasSubL "CODEBLOCK_".data ['\x60','\x60','\x60'] = false from by decide]
    simp only [Bool.false_eq_true, if_false]
    rw [show lineStep false ['\x60','\x60','\x60'] = ([['\x60','\x60','\x60']], false) from by decide]
    rfl
  have hPne : processLines false false (splitNL t) ≠ [] := by
    cases hs : splitNL t with
    | nil => exact absurd hs (splitNL_ne_nil t)
    | cons q qs => exact processLines_ne_nil _ _ _ _
  have hr : '\x60' ∉ joinNL (processLines false false (splitNL t)) :=
    joinNL_noBt (processLines_noBt (splitNL t) false false
      (fun line hline hm => h (splitNL_mem hline _ hm)))
  have hjoin : joinNL (['\x60','\x60','\x60'] :: processLines false false (splitNL t))
      = '\x60' :: '\x60' :: '\x60' :: '\n' :: joinNL (processLines false false (splitNL t)) := by
    rw [joinNL_cons hPne]
    rfl
  have core : mdCore ('\x60' :: '\x60' :: '\x60' :: '\n' ::t)
      = '\x60' :: '\x60' :: '\x60' :: '\n' :: mdCore t := by
    unfold mdCore
    rw [hsf, splitFence_no_bt h,
        show (pairFences [[], '\n' ::t] 0).text = '\x60' :: '\x60' :: '\x60' :: '\n' ::t from rfl,
        show (pairFences [[], '\n' ::t] 0).codes = [] from rfl,
        show (pairFences [t] 0).text = t from rfl,
        show (pairFences [t] 0).codes = [] from rfl,
        hlines, hproc, hjoin]
    exact phaseB_fence_prefix hr
  calc markdownToHTML ⟨'\x60' :: '\x60' :: '\x60' :: '\n' ::t⟩
      = ⟨mdCore ('\x60' :: '\x60' :: '\x60' :: '\n' ::t)⟩ := rfl
    _ = ⟨'\x60' :: '\x60' :: '\x60' :: '\n' :: mdCore t⟩ := congrArg String.mk core

/-- C8 counterexample: the input consisting of a single (odd, unmatched)
triple-backtick fence marker followed by a heading line. The claim says the
remainder after the unmatched fence is consumed as code and not interpreted
as markup; in fact the renderer leaves the marker literal and turns the
remainder into an <h1> heading. -/
theorem C8_counterexample :
    markdownToHTML ⟨'\x60' :: '\x60' :: '\x60' :: '\n' :: "# Hi".data⟩
      = ⟨'\x60' :: '\x60' :: '\x60' :: '\n' :: "<h1>Hi</h1>".data⟩ := by decide

/-- C8 witness: the amended theorem applied at the concrete remainder "# Hi". -/
theorem C8_unmatched_fence_witness :
    '\x60' ∉ "# Hi".data ∧
    markdownToHTML ⟨'\x60' :: '\x60' :: '\x60' :: '\n' :: "# Hi".data⟩
      = ⟨'\x60' :: '\x60' :: '\x60' :: '\n' :: mdCore "# Hi".data⟩ :=
  ⟨by decide, C8_unmatched_fence_amended "# Hi".data (by decide)⟩

theorem trimL_cons_not_ws (a : Char) (l : List Char) (ha : isWSChar a = false) :
    trimL (a :: l) = a :: (l.reverse.dropWhile isWSChar).reverse := by
  simp only [trimL, trimLeftL, List.dropWhile_cons, ha, Bool.false_eq_true, if_false,
    List.reverse_cons, List.dropWhile_append]
  by_cases hE : (l.reverse.dropWhile isWSChar).isEmpty
  · rw [if_pos hE]
    rw [List.isEmpty_iff] at hE
    simp [hE, List.dropWhile_cons, ha]
  · rw [if_neg hE]
    simp

theorem mem_trimL {ch : Char} {l : List Char} (h : ch ∈ trimL l) : ch ∈ l := by
  simp only [trimL, trimLeftL, List.mem_reverse] at h
  have h2 := (List.dropWhile_sublist _).subset h
  rw [List.mem_reverse] at h2
  exact (List.dropWhile_sublist _).subset h2

theorem trim_wrap (c : List Char) : trimL ('\n' :: (c ++ ['\n'])) = trimL c := by
  simp only [trimL, trimLeftL, List.dropWhile_cons,
    show isWSChar '\n' = true from rfl, if_true, List.dropWhile_append]
  by_cases hE : (c.dropWhile isWSChar).isEmpty
  · rw [if_pos hE]
    rw [List.isEmpty_iff] at hE
    simp [hE, List.dropWhile_cons, show isWSChar '\n' = true from rfl]
  · rw [if_neg hE]
    simp [List.dropWhile_cons, show isWSChar '\n' = true from rfl]

theorem safe_ne_all {ch : Char} (h : ch.isAlpha ∨ ch.isDigit ∨ ch = ' ') :
    ch ≠ '<' ∧ ch ≠ '\x60' ∧ ch ≠ '\n' ∧ ch ≠ '[' ∧ ch ≠ '*' ∧ ch ≠ '_' := by
  refine ⟨?_, ?_, ?_, ?_, ?_, ?_⟩ <;> (intro he; subst he; exact absurd h (by decide))

theorem isPrefixOf_append_self : ∀ (p r : List Char), p.isPrefixOf (p ++ r) = true := by
  intro p r
  induction p with
  | nil => simp [List.isPrefixOf]
  | cons c p' ih => simp [List.isPrefixOf, ih]

theorem mem_of_isPrefixOf : ∀ {p l : List Char}, p.isPrefixOf l = true → ∀ ch ∈ p, ch ∈ l := by
  intro p
  induction p with
  | nil => intro l _ ch hch; exact absurd hch (List.not_mem_nil ch)
  | cons c p' ih =>
      intro l h ch hch
      cases l with
      | nil => exact absurd h (by simp [List.isPrefixOf])
      | cons d l' =>
          simp only [List.isPrefixOf, Bool.and_eq_true, beq_iff_eq] at h
          rcases List.mem_cons.mp hch with he | hm
          · exact he ▸ h.1 ▸ List.mem_cons_self d l'
          · exact List.mem_cons_of_mem d (ih h.2 ch hm)

theorem hasSubL_mem : ∀ {l pat : List Char}, hasSubL pat l = true → ∀ ch ∈ pat, ch ∈ l := by
  intro l
  induction l with
  | nil =>
      intro pat h ch hch
      simp only [hasSubL, List.isEmpty_iff] at h
      subst h
      exact absurd hch (List.not_mem_nil ch)
  | cons c rest ih =>
      intro pat h ch hch
      simp only [hasSubL, Bool.or_eq_true] at h
      rcases h with h | h
      · exact mem_of_isPrefixOf h ch hch
      · exact List.mem_cons_of_mem c (ih h ch hch)

theorem replaceFirstL_self (pat repl : List Char) (h : pat ≠ []) :
    replaceFirstL pat repl pat = repl := by
  cases pat with
  | nil => exact absurd rfl h
  | cons c rest =>
      have hp : (c :: rest).isPrefixOf (c :: rest) = true := by
        have h0 := isPrefixOf_append_self (c :: rest) []
        rw [List.append_nil] at h0
        exact h0
      simp [replaceFirstL, hp, List.drop_length]

theorem preCodeScan_nil : ∀ n, preCodeScan n [] = [] := by
  intro n; cases n <;> rfl

theorem stripTagsF_no_lt : ∀ (l : List Char), '<' ∉ l → ∀ n, l.length ≤ n →
    stripTagsF n l = l := by
  intro l
  induction l with
  | nil => intro _ n _; cases n <;> rfl
  | cons c rest ih =>
      intro h n hn
      cases n with
      | zero => simp at hn
      | succ n =>
          have hc : ¬ c = '<' := fun he => h (he ▸ List.mem_cons_self c rest)
          simp only [stripTagsF, if_neg hc]
          exact congrArg (c :: ·) (ih (fun hm => h (List.mem_cons_of_mem c hm)) n
            (by simpa using Nat.succ_le_succ_iff.mp (by simpa using hn)))

theorem stripTags_no_lt (l : List Char) (h : '<' ∉ l) : stripTags l = l :=
  stripTagsF_no_lt l h _ le_rfl

theorem splitAtSub_boundary (pc : Char) (pat' : List Char) :
    ∀ (mid rest : List Char), pc ∉ mid →
    splitAtSub (pc :: pat') (mid ++ (pc :: pat') ++ rest) = some (mid, rest) := by
  intro mid
  induction mid with
  | nil =>
      intro rest _
      simp only [List.nil_append, List.cons_append, splitAtSub]
      rw [if_pos (by
        have h0 := isPrefixOf_append_self (pc :: pat') rest
        simp only [List.cons_append] at h0
        exact h0)]
      simp only [List.length_cons, List.drop_succ_cons, List.append_eq, List.drop_left]
  | cons m mid' ih =>
      intro rest h
      simp only [List.cons_append, splitAtSub]
      rw [if_neg ?hpre]
      · have hm : pc ∉ mid' := fun hmm => h (List.mem_cons_of_mem m hmm)
        have hrec := ih rest hm
        simp only [List.cons_append, List.append_eq] at hrec ⊢
        rw [hrec]
        rfl
      case hpre =>
        have hne : ¬ pc = m := fun he => h (he ▸ List.mem_cons_self m mid')
        simp [List.isPrefixOf, hne]

theorem preTag_shape (m : List Char) :
    preTag m = '<' :: ("pre><code>".data ++ (m ++ "</code></pre>".data)) := by
  show ("<pre><code>".data ++ m) ++ "</code></pre>".data = _
  rw [show "<pre><code>".data = '<' :: "pre><code>".data from rfl]
  simp [List.cons_append, List.append_assoc]

theorem lineStep_lt (l : List Char) : lineStep false ('<' :: l) = ([('<' :: l)], false) := by
  have h3 : headingRest "###".data ('<' :: l) = none := by
    simp [headingRest, List.isPrefixOf]
  have h2 : headingRest "##".data ('<' :: l) = none := by
    simp [headingRest, List.isPrefixOf]
  have h1 : headingRest "#".data ('<' :: l) = none := by
    simp [headingRest, List.isPrefixOf]
  have ht := trimL_cons_not_ws '<' l (by decide)
  have hhr : ¬ trimL ('<' :: l) = "---".data := by
    rw [ht, show "---".data = ['-', '-', '-'] from rfl]
    simp
  have hb : bulletContent ('<' :: l) = none := by
    simp [bulletContent, List.dropWhile_cons, show isWSChar '<' = false from rfl,
      show ('<' = '-') = False from by simp, show ('<' = '*') = False from by simp]
  have hn : numberedContent ('<' :: l) = none := by
    simp [numberedContent, List.takeWhile_cons, show Char.isDigit '<' = false from rfl]
  have hemp : ¬ (trimL ('<' :: l)).isEmpty = true := by
    rw [ht]
    simp
  unfold lineStep
  rw [h3, h2, h1, hb, hn]
  simp only [if_neg hhr, if_neg hemp]
  simp

theorem collapsePass_preTag (m : List Char) (hm : ∀ ch ∈ m, ch ≠ '<') :
    collapsePass (preTag m) = preTag m := by
  unfold collapsePass preTag
  rw [List.append_assoc]
  rw [show ("<pre><code>".data ++ (m ++ "</code></pre>".data)).length
        = "<pre><code>".data.length + (m.length + "</code></pre>".data.length) from by
      simp [List.length_append]
      omega]
  rw [collapseF_append_brSafe "<pre><code>".data (by decide)
    (m.length + "</code></pre>".data.length) (m ++ "</code></pre>".data)]
  rw [show m.length + "</code></pre>".data.length
        = m.length + "</code></pre>".data.length from rfl]
  rw [collapseF_append_brSafe m (brSafePre_of_no_lt hm)
    ("</code></pre>".data.length) ("</code></pre>".data)]
  rw [show collapseF "</code></pre>".data.length "</code></pre>".data
        = "</code></pre>".data from by decide]

theorem preCodeContents_pre (m : List Char) (hm : '<' ∉ m) :
    preCodeContents ⟨preTag m⟩ = [m] := by
  show preCodeScan (preTag m).length (preTag m) = [m]
  rw [preTag_shape, List.length_cons]
  have hpre : "<pre><code>".data.isPrefixOf
      ('<' :: ("pre><code>".data ++ (m ++ "</code></pre>".data))) = true := by
    have h0 := isPrefixOf_append_self "<pre><code>".data (m ++ "</code></pre>".data)
    rw [show "<pre><code>".data ++ (m ++ "</code></pre>".data)
          = '<' :: ("pre><code>".data ++ (m ++ "</code></pre>".data)) from rfl] at h0
    exact h0
  have hdrop : ('<' :: ("pre><code>".data ++ (m ++ "</code></pre>".data))).drop 11
      = m ++ "</code></pre>".data := by
    rw [show ('<' :: ("pre><code>".data ++ (m ++ "</code></pre>".data)))
          = "<pre><code>".data ++ (m ++ "</code></pre>".data) from rfl,
        show (11 : Nat) = ("<pre><code>".data).length from rfl, List.drop_left]
  have hsub : splitAtSub "</code></pre>".data (m ++ "</code></pre>".data) = some (m, []) := by
    have h0 := splitAtSub_boundary '<' "/code></pre>".data m [] hm
    rw [List.append_nil] at h0
    exact h0
  simp only [preCodeScan, hpre, if_true, hdrop, hsub, preCodeScan_nil]

theorem mdCore_pre_fixed (m : List Char)
    (h : ∀ ch ∈ m, ch ≠ '<' ∧ ch ≠ '\x60' ∧ ch ≠ '\n' ∧ ch ≠ '[' ∧ ch ≠ '*' ∧ ch ≠ '_') :
    mdCore (preTag m) = preTag m := by
  have key : ∀ (x : Char), x ∉ "<pre><code>".data → x ∉ "</code></pre>".data →
      (∀ ch ∈ m, ¬ ch = x) → x ∉ preTag m := by
    intro x hp ht hmid hx
    simp only [preTag, List.append_assoc, List.mem_append] at hx
    rcases hx with h1 | h2 | h3
    · exact hp h1
    · exact hmid x h2 rfl
    · exact ht h3
  have hbt : '\x60' ∉ preTag m := key _ (by decide) (by decide) (fun ch hc => (h ch hc).2.1)
  have hnl : '\n' ∉ preTag m := key _ (by decide) (by decide) (fun ch hc => (h ch hc).2.2.1)
  have hlb : '[' ∉ preTag m := key _ (by decide) (by decide) (fun ch hc => (h ch hc).2.2.2.1)
  have hst : '*' ∉ preTag m := key _ (by decide) (by decide) (fun ch hc => (h ch hc).2.2.2.2.1)
  have hus : '_' ∉ preTag m := key _ (by decide) (by decide) (fun ch hc => (h ch hc).2.2.2.2.2)
  have hns : hasSubL "CODEBLOCK_".data (preTag m) = false := by
    rcases Bool.eq_false_or_eq_true (hasSubL "CODEBLOCK_".data (preTag m)) with hT | hF
    · exact absurd (hasSubL_mem hT '_' (by decide)) hus
    · exact hF
  have hls : lineStep false (preTag m) = ([preTag m], false) := by
    rw [preTag_shape]
    exact lineStep_lt _
  have hpl : processLines false false [preTag m] = [preTag m] := by
    simp only [processLines]
    rw [hns]
    simp only [Bool.false_eq_true, if_false]
    rw [hls]
    simp [processLines]
  unfold mdCore
  rw [splitFence_no_bt hbt]
  rw [show (pairFences [preTag m] 0).text = preTag m from rfl,
      show (pairFences [preTag m] 0).codes = [] from rfl]
  rw [splitNL_no_newline hnl, hpl]
  rw [show joinNL [preTag m] = preTag m from rfl]
  unfold phaseB
  rw [show inlineCode (preTag m) = preTag m from inlineCodeF_inert _ hbt _ le_rfl]
  rw [show linkPass (preTag m) = preTag m from linkF_inert _ hlb _ le_rfl]
  rw [show boldPass '*' (preTag m) = preTag m from boldF_inert '*' _ hst _ le_rfl]
  rw [show boldPass '_' (preTag m) = preTag m from boldF_inert '_' _ hus _ le_rfl]
  rw [show italPass '*' (preTag m) = preTag m from italF_inert '*' _ hst _ false le_rfl]
  rw [show italPass '_' (preTag m) = preTag m from italF_inert '_' _ hus _ false le_rfl]
  rw [show reinsertCodes [] 0 (preTag m) = preTag m from rfl]
  exact collapsePass_preTag m (fun ch hc => (h ch hc).1)

theorem mdCore_fenced (c : List Char)
    (hbt : '\x60' ∉ ('\n' :: (c ++ ['\n'])))
    (hlt : ∀ ch ∈ trimL ('\n' :: (c ++ ['\n'])), ch ≠ '<') :
    mdCore ('\x60' :: '\x60' :: '\x60' :: '\n' :: (c ++ ('\n' :: '\x60' :: '\x60' :: '\x60' :: [])))
      = preTag (trimL ('\n' :: (c ++ ['\n']))) := by
  have hshape : '\n' :: (c ++ ('\n' :: '\x60' :: '\x60' :: '\x60' :: []))
      = ('\n' :: (c ++ ['\n'])) ++ ['\x60', '\x60', '\x60'] := by simp
  have hsf : splitFence
        ('\x60' :: '\x60' :: '\x60' :: '\n' :: (c ++ ('\n' :: '\x60' :: '\x60' :: '\x60' :: [])))
      = [[], '\n' :: (c ++ ['\n']), []] := by
    rw [show splitFence
          ('\x60' :: '\x60' :: '\x60' :: ('\n' :: (c ++ ('\n' :: '\x60' :: '\x60' :: '\x60' :: []))))
          = [] :: splitFence ('\n' :: (c ++ ('\n' :: '\x60' :: '\x60' :: '\x60' :: []))) from rfl]
    rw [hshape, splitFence_append_fence hbt []]
    rfl
  unfold mdCore
  rw [hsf]
  rw [show (pairFences [[], '\n' :: (c ++ ['\n']), []] 0).text = placeholderL 0 from rfl,
      show (pairFences [[], '\n' :: (c ++ ['\n']), []] 0).codes
        = [trimL ('\n' :: (c ++ ['\n']))] from rfl]
  rw [splitNL_no_newline (show '\n' ∉ placeholderL 0 from by decide)]
  rw [show processLines false false [placeholderL 0] = [placeholderL 0] from by
    simp [processLines, show hasSubL "CODEBLOCK_".data (placeholderL 0) = true from by decide]]
  rw [show joinNL [placeholderL 0] = placeholderL 0 from rfl]
  unfold phaseB
  rw [show italPass '_' (italPass '*' (boldPass '_' (boldPass '*' (linkPass (inlineCode (placeholderL 0))))))
        = placeholderL 0 from by decide]
  rw [show reinsertCodes [trimL ('\n' :: (c ++ ['\n']))] 0 (placeholderL 0)
        = replaceFirstL (placeholderL 0) (preTag (trimL ('\n' :: (c ++ ['\n'])))) (placeholderL 0)
        from rfl]
  rw [replaceFirstL_self _ _ (by decide)]
  exact collapsePass_preTag _ hlt

/-- C9 amended: for an even (single, matched) fence pair whose content uses
only letters, digits and spaces, the fence count is even, the original
code-block content is the newline-wrapped content, and rendering twice then
stripping markup yields the TRIMMED content — not the byte-identical
original, because the fence-extraction phase trims each code block. -/
theorem C9_roundtrip_amended (c : List Char)
    (hc : ∀ ch ∈ c, ch.isAlpha ∨ ch.isDigit ∨ ch = ' ') :
    fenceCount ⟨'\x60' :: '\x60' :: '\x60' :: '\n' :: (c ++ ('\n' :: '\x60' :: '\x60' :: '\x60' :: []))⟩ % 2 = 0 ∧
    fencedContents ⟨'\x60' :: '\x60' :: '\x60' :: '\n' :: (c ++ ('\n' :: '\x60' :: '\x60' :: '\x60' :: []))⟩
      = ['\n' :: (c ++ ['\n'])] ∧
    (preCodeContents (markdownToHTML (markdownToHTML
        ⟨'\x60' :: '\x60' :: '\x60' :: '\n' :: (c ++ ('\n' :: '\x60' :: '\x60' :: '\x60' :: []))⟩))).map stripTags
      = [trimL c] := by
  have hsafe : ∀ ch ∈ c, ch ≠ '<' ∧ ch ≠ '\x60' ∧ ch ≠ '\n' ∧ ch ≠ '[' ∧ ch ≠ '*' ∧ ch ≠ '_' :=
    fun ch hch => safe_ne_all (hc ch hch)
  have hbt : '\x60' ∉ ('\n' :: (c ++ ['\n'])) := by
    intro hm
    rcases List.mem_cons.mp hm with he | hm2
    · exact absurd he (by decide)
    · rcases List.mem_append.mp hm2 with h3 | h4
      · exact (hsafe _ h3).2.1 rfl
      · simp at h4
  have htr : trimL ('\n' :: (c ++ ['\n'])) = trimL c := trim_wrap c
  have htc : ∀ ch ∈ trimL c, ch ≠ '<' ∧ ch ≠ '\x60' ∧ ch ≠ '\n' ∧ ch ≠ '[' ∧ ch ≠ '*' ∧ ch ≠ '_' :=
    fun ch hch => hsafe ch (mem_trimL hch)
  have hlt : ∀ ch ∈ trimL ('\n' :: (c ++ ['\n'])), ch ≠ '<' := by
    rw [htr]
    exact fun ch hch => (htc ch hch).1
  have hshape : '\n' :: (c ++ ('\n' :: '\x60' :: '\x60' :: '\x60' :: []))
      = ('\n' :: (c ++ ['\n'])) ++ ['\x60', '\x60', '\x60'] := by simp
  have hsf : splitFence
        ('\x60' :: '\x60' :: '\x60' :: '\n' :: (c ++ ('\n' :: '\x60' :: '\x60' :: '\x60' :: [])))
      = [[], '\n' :: (c ++ ['\n']), []] := by
    rw [show splitFence
          ('\x60' :: '\x60' :: '\x60' :: ('\n' :: (c ++ ('\n' :: '\x60' :: '\x60' :: '\x60' :: []))))
          = [] :: splitFence ('\n' :: (c ++ ('\n' :: '\x60' :: '\x60' :: '\x60' :: []))) from rfl]
    rw [hshape, splitFence_append_fence hbt []]
    rfl
  refine ⟨?_, ?_, ?_⟩
  · show ((splitFence _).length - 1) % 2 = 0
    rw [hsf]
    simp
  · show oddPieces (splitFence _) = _
    rw [hsf]
    rfl
  · have h1 : markdownToHTML
        ⟨'\x60' :: '\x60' :: '\x60' :: '\n' :: (c ++ ('\n' :: '\x60' :: '\x60' :: '\x60' :: []))⟩
        = ⟨preTag (trimL c)⟩ := by
      rw [show markdownToHTML
            ⟨'\x60' :: '\x60' :: '\x60' :: '\n' :: (c ++ ('\n' :: '\x60' :: '\x60' :: '\x60' :: []))⟩
            = ⟨mdCore ('\x60' :: '\x60' :: '\x60' :: '\n' :: (c ++ ('\n' :: '\x60' :: '\x60' :: '\x60' :: [])))⟩
            from rfl]
      rw [mdCore_fenced c hbt hlt, htr]
    have h2 : markdownToHTML ⟨preTag (trimL c)⟩ = ⟨preTag (trimL c)⟩ := by
      rw [preTag_shape]
      rw [show markdownToHTML ⟨'<' :: ("pre><code>".data ++ (trimL c ++ "</code></pre>".data))⟩
            = ⟨mdCore ('<' :: ("pre><code>".data ++ (trimL c ++ "</code></pre>".data)))⟩ from rfl]
      rw [← preTag_shape]
      rw [mdCore_pre_fixed _ htc]
    rw [h1, h2]
    rw [preCodeContents_pre _ (fun hm => (htc _ hm).1 rfl)]
    rw [List.map_cons, List.map_nil, stripTags_no_lt _ (fun hm => (htc _ hm).1 rfl)]

/-- C9 counterexample: the even-fenced input "\x60\x60\x60\na *b* c\n\x60\x60\x60".
Rendering twice and stripping markup yields ["a b c"], not the original
code-block content ["\na *b* c\n"]: the extraction trims the content, and the
second render rewrites *b* to <em>b</em> inside the former code block, so the
asterisks are lost to the markup strip. -/
theorem C9_counterexample :
    fenceCount "\x60\x60\x60\na *b* c\n\x60\x60\x60" % 2 = 0 ∧
    (preCodeContents (markdownToHTML (markdownToHTML
        "\x60\x60\x60\na *b* c\n\x60\x60\x60"))).map stripTags
      ≠ fencedContents "\x60\x60\x60\na *b* c\n\x60\x60\x60" ∧
    (preCodeContents (markdownToHTML (markdownToHTML
        "\x60\x60\x60\na *b* c\n\x60\x60\x60"))).map stripTags
      = ["a b c".data] ∧
    fencedContents "\x60\x60\x60\na *b* c\n\x60\x60\x60" = ["\na *b* c\n".data] := by
  decide

/-- C9 witness: the amended theorem applied at the concrete content
"hi there". -/
theorem C9_roundtrip_witness :
    fenceCount ⟨'\x60' :: '\x60' :: '\x60' :: '\n' :: ("hi there".data ++ ('\n' :: '\x60' :: '\x60' :: '\x60' :: []))⟩ % 2 = 0 ∧
    fencedContents ⟨'\x60' :: '\x60' :: '\x60' :: '\n' :: ("hi there".data ++ ('\n' :: '\x60' :: '\x60' :: '\x60' :: []))⟩
      = ['\n' :: ("hi there".data ++ ['\n'])] ∧
    (preCodeContents (markdownToHTML (markdownToHTML
        ⟨'\x60' :: '\x60' :: '\x60' :: '\n' :: ("hi there".data ++ ('\n' :: '\x60' :: '\x60' :: '\x60' :: []))⟩))).map stripTags
      = [trimL "hi there".data] :=
  C9_roundtrip_amended "hi there".data (by decide)

/-- C5 amended: the guard (app.js 1256-1258) returns the all-empty result
exactly for a falsy narrative or fewer than two products; a truthy
non-string narrative is NOT rejected — it is coerced with String(...) and
processed (see the counterexample). -/
theorem C5_guard_amended (responseText : JVal) (products : List Product)
    (h : jsFalsy responseText ∨ products.length < 2) :
    extractStructuredComparison responseText products = emptyResult := by
  unfold extractStructuredComparison
  rw [if_pos h]

/-- C5 witness: the guard applied to the empty narrative and to a
single-product call. -/
theorem C5_guard_witness :
    extractStructuredComparison (.jstr "") [⟨"alpha", "x1"⟩, ⟨"beta", "x2"⟩] = emptyResult ∧
    extractStructuredComparison (.jstr "produkt 1\nkurzbeschreibung\nthis is a sufficiently long line of text") [⟨"alpha", "x1"⟩] = emptyResult :=
  ⟨C5_guard_amended _ _ (by decide), C5_guard_amended _ _ (by decide)⟩

/-- C5 counterexample: a truthy NON-string narrative (an array holding one
string) is coerced by String(...) and fully processed: the result is not
all-empty, contradicting the claim that a non-string narrative yields the
all-empty result. -/
theorem C5_counterexample :
    (extractStructuredComparison
        (.jarr [.jstr "produkt 1\nkurzbeschreibung\nthis is a sufficiently long line of text"])
        [⟨"alpha", "x1"⟩, ⟨"beta", "x2"⟩]).produkt1.kurzbeschreibung
      = "this is a sufficiently long line of text" ∧
    extractStructuredComparison
        (.jarr [.jstr "produkt 1\nkurzbeschreibung\nthis is a sufficiently long line of text"])
        [⟨"alpha", "x1"⟩, ⟨"beta", "x2"⟩]
      ≠ emptyResult := by decide

/-- C6 amended: a section matching none of the markers is processed under
the owner carried over from the previous sections (app.js 1273: the variable
persists); it contributes nothing only when no owner has been established
yet (`currentProduct` still null, app.js 1292). -/
theorem C6_carryover_amended (p1n p2n p1a p2a : String) (cs : Option CSec)
    (res : CompResult) (piece : List Char) (ow : Owner)
    (h : matchOwner p1n p2n p1a p2a none (jsToLower ⟨piece⟩) = none) :
    stepSection p1n p2n p1a p2a ⟨none, cs, res⟩ piece = ⟨none, cs, res⟩ ∧
    stepSection p1n p2n p1a p2a ⟨some ow, cs, res⟩ piece
      = ⟨some ow, ((splitNL piece).foldl (stepLine ow) ⟨flags0, cs, res⟩).cs,
          ((splitNL piece).foldl (stepLine ow) ⟨flags0, cs, res⟩).res⟩ := by
  have hcarry : matchOwner p1n p2n p1a p2a (some ow) (jsToLower ⟨piece⟩) = some ow := by
    unfold matchOwner at h ⊢
    split_ifs at h ⊢
    all_goals simp_all
  constructor
  · unfold stepSection
    rw [h]
  · unfold stepSection
    rw [hcarry]

/-- C6 witness: the carry-over theorem at the concrete unmatched section
"kurzbeschreibung: ..." with owner produkt 1. -/
theorem C6_carryover_witness :
    stepSection "alpha" "beta" "x1" "x2" ⟨none, none, emptyResult⟩
        "kurzbeschreibung:\nA sufficiently long description line here".data
      = ⟨none, none, emptyResult⟩ ∧
    stepSection "alpha" "beta" "x1" "x2" ⟨some .p1, none, emptyResult⟩
        "kurzbeschreibung:\nA sufficiently long description line here".data
      = ⟨some .p1,
          ((splitNL "kurzbeschreibung:\nA sufficiently long description line here".data).foldl
            (stepLine .p1) ⟨flags0, none, emptyResult⟩).cs,
          ((splitNL "kurzbeschreibung:\nA sufficiently long description line here".data).foldl
            (stepLine .p1) ⟨flags0, none, emptyResult⟩).res⟩ :=
  C6_carryover_amended "alpha" "beta" "x1" "x2" none emptyResult
    "kurzbeschreibung:\nA sufficiently long description line here".data .p1 (by decide)

/-- C6 counterexample: in the narrative
"produkt 1===kurzbeschreibung: ...", the second section contains neither
product marker, neither product name (alpha/beta), neither article number
(x1/x2) and no comparison marker — yet its line is stored as produkt1's
short description through the carried-over owner, contradicting "sections
matching none are skipped entirely". -/
theorem C6_counterexample :
    (let sl := jsToLower ⟨(splitEq3
        "produkt 1===kurzbeschreibung:\nA sufficiently long description line here".data).getD 1 []⟩
     (!hasSub sl "produkt 1" && !hasSub sl "produkt 2" && !hasSub sl "produktvergleich"
        && !hasSub sl "alpha" && !hasSub sl "beta" && !hasSub sl "x1" && !hasSub sl "x2") = true) ∧
    (extractStructuredComparison
        (.jstr "produkt 1===kurzbeschreibung:\nA sufficiently long description line here")
        [⟨"alpha", "x1"⟩, ⟨"beta", "x2"⟩]).produkt1.kurzbeschreibung
      = "A sufficiently long description line here" := by decide

theorem pushIfLong_len (xs : List String) (c : String) :
    (pushIfLong xs c).length ≤ xs.length + 1 := by
  unfold pushIfLong
  split <;> simp

theorem pushIfLong_long {xs : List String} {c : String} (h : entriesLong xs) :
    entriesLong (pushIfLong xs c) := by
  unfold pushIfLong
  split
  · intro e he
    rcases List.mem_append.mp he with h1 | h2
    · exact h e h1
    · rename_i hc
      rw [show e = c from by simpa using h2]
      exact hc.2
  · exact h

set_option maxHeartbeats 1000000 in
theorem prodLine_good (ow : Owner) (st : LineState) (line : List Char) (ll : String)
    (hg : goodRes st.res) : goodRes (prodLine ow st line ll).res := by
  obtain ⟨h1, h2, h3, h4, h5, h6, h7, h8, h9, h10, h11, h12⟩ := hg
  cases ow
  all_goals simp only [prodLine]
  all_goals repeat' split
  all_goals simp only [goodRes, updProd, updVgl, updP1A, updP2A]
  all_goals refine ⟨?_, ?_, ?_, ?_, ?_, ?_, ?_, ?_, ?_, ?_, ?_, ?_⟩
  all_goals repeat' split
  all_goals first
    | assumption
    | (apply pushIfLong_long; assumption)

set_option maxHeartbeats 1000000 in
theorem vglHeading_res (st : LineState) (ll : String) (st2 : LineState)
    (h : vglHeading st ll = some st2) : st2.res = st.res := by
  unfold vglHeading at h
  repeat' split at h
  all_goals first
    | exact Option.noConfusion h
    | (injection h with h2; subst h2; rfl)

set_option maxHeartbeats 1000000 in
theorem vglExtract_good (st : LineState) (line : List Char)
    (hg : goodRes st.res) : goodRes (vglExtract st line).res := by
  obtain ⟨h1, h2, h3, h4, h5, h6, h7, h8, h9, h10, h11, h12⟩ := hg
  unfold vglExtract
  repeat' split
  all_goals simp only [goodRes, updProd, updVgl, updP1A, updP2A]
  all_goals refine ⟨?_, ?_, ?_, ?_, ?_, ?_, ?_, ?_, ?_, ?_, ?_, ?_⟩
  all_goals first
    | assumption
    | (apply pushIfLong_long; assumption)

theorem vglLine_good (st : LineState) (line : List Char) (ll : String)
    (hg : goodRes st.res) : goodRes (vglLine st line ll).res := by
  unfold vglLine
  split
  · rename_i st2 h
    rw [vglHeading_res st ll st2 h]
    exact hg
  · exact vglExtract_good st line hg

set_option maxHeartbeats 1000000 in
theorem sharedHeading_res (st : LineState) (ll : String) (st2 : LineState)
    (h : sharedHeading st ll = some st2) : st2.res = st.res := by
  unfold sharedHeading at h
  repeat' split at h
  all_goals first
    | exact Option.noConfusion h
    | (injection h with h2; subst h2; rfl)

theorem stepLine_good (ow : Owner) (st : LineState) (raw : List Char)
    (hg : goodRes st.res) : goodRes (stepLine ow st raw).res := by
  simp only [stepLine]
  split
  · rename_i st2 h
    rw [sharedHeading_res st _ st2 h]
    exact hg
  · split
    · exact vglLine_good _ _ _ hg
    · exact prodLine_good _ _ _ _ hg

set_option maxHeartbeats 1000000 in
theorem prodLine_total (ow : Owner) (st : LineState) (line : List Char) (ll : String) :
    totalEntries (prodLine ow st line ll).res ≤ totalEntries st.res + 1 := by
  cases ow
  all_goals unfold prodLine
  all_goals repeat' split
  all_goals simp only [totalEntries, updProd, updVgl, updP1A, updP2A, pushIfLong]
  all_goals repeat' split
  all_goals (try simp only [List.length_append, List.length_cons, List.length_nil])
  all_goals omega

set_option maxHeartbeats 1000000 in
theorem vglExtract_total (st : LineState) (line : List Char) :
    totalEntries (vglExtract st line).res ≤ totalEntries st.res + 1 := by
  unfold vglExtract
  repeat' split
  all_goals simp only [totalEntries, updProd, updVgl, updP1A, updP2A, pushIfLong]
  all_goals repeat' split
  all_goals (try simp only [List.length_append, List.length_cons, List.length_nil])
  all_goals omega

theorem vglLine_total (st : LineState) (line : List Char) (ll : String) :
    totalEntries (vglLine st line ll).res ≤ totalEntries st.res + 1 := by
  unfold vglLine
  split
  · rename_i st2 h
    rw [vglHeading_res st ll st2 h]
    omega
  · exact vglExtract_total st line

theorem stepLine_total (ow : Owner) (st : LineState) (raw : List Char) :
    totalEntries (stepLine ow st raw).res ≤ totalEntries st.res + 1 := by
  simp only [stepLine]
  split
  · rename_i st2 h
    rw [sharedHeading_res st _ st2 h]
    omega
  · split
    · exact vglLine_total _ _ _
    · exact prodLine_total _ _ _ _

theorem linesFold_good (ow : Owner) :
    ∀ (lines : List (List Char)) (st : LineState), goodRes st.res →
    goodRes ((lines.foldl (stepLine ow) st).res) := by
  intro lines
  induction lines with
  | nil => intro st hg; exact hg
  | cons l ls ih => intro st hg; exact ih (stepLine ow st l) (stepLine_good ow st l hg)

theorem linesFold_total (ow : Owner) :
    ∀ (lines : List (List Char)) (st : LineState),
    totalEntries ((lines.foldl (stepLine ow) st).res) ≤ totalEntries st.res + lines.length := by
  intro lines
  induction lines with
  | nil => intro st; simp
  | cons l ls ih =>
      intro st
      have h1 := ih (stepLine ow st l)
      have h2 := stepLine_total ow st l
      simp only [List.foldl_cons, List.length_cons]
      omega

theorem stepSection_good (p1n p2n p1a p2a : String) (st : SecState) (piece : List Char)
    (hg : goodRes st.res) : goodRes (stepSection p1n p2n p1a p2a st piece).res := by
  unfold stepSection
  split
  · exact hg
  · exact linesFold_good _ _ _ hg

theorem stepSection_total (p1n p2n p1a p2a : String) (st : SecState) (piece : List Char) :
    totalEntries (stepSection p1n p2n p1a p2a st piece).res
      ≤ totalEntries st.res + (splitNL piece).length := by
  unfold stepSection
  split
  · omega
  · exact linesFold_total _ _ _

theorem sectionsFold_bounds (p1n p2n p1a p2a : String) :
    ∀ (pieces : List (List Char)) (st : SecState), goodRes st.res →
    goodRes ((pieces.foldl (stepSection p1n p2n p1a p2a) st).res) ∧
    totalEntries ((pieces.foldl (stepSection p1n p2n p1a p2a) st).res)
      ≤ totalEntries st.res + (pieces.map (fun p => (splitNL p).length)).sum := by
  intro pieces
  induction pieces with
  | nil => intro st hg; exact ⟨hg, by simp⟩
  | cons p ps ih =>
      intro st hg
      have hstep := stepSection_total p1n p2n p1a p2a st p
      have hrec := ih (stepSection p1n p2n p1a p2a st p) (stepSection_good _ _ _ _ _ _ hg)
      refine ⟨hrec.1, ?_⟩
      have h2 := hrec.2
      simp only [List.foldl_cons, List.map_cons, List.sum_cons]
      omega

theorem postProd_kurz (p : ProdInfo) : (postProd p).kurzbeschreibung.data.length ≤ 500 := by
  unfold postProd
  repeat' split
  all_goals simp [List.length_take]

theorem postProd_empf (p : ProdInfo) : (postProd p).empfehlung.data.length ≤ 300 := by
  unfold postProd
  repeat' split
  all_goals simp [List.length_take]

theorem postProd_einsatz_le (p : ProdInfo) : (postProd p).einsatzgebiete.length ≤ 5 := by
  unfold postProd
  simp [List.length_take]

theorem entriesLong_take {xs : List String} (n : Nat) (h : entriesLong xs) :
    entriesLong (xs.take n) :=
  fun e he => h e (List.take_subset n xs he)

theorem goodRes_post {r : CompResult} (hg : goodRes r) : goodRes (postResult r) := by
  obtain ⟨h1, h2, h3, h4, h5, h6, h7, h8, h9, h10, h11, h12⟩ := hg
  exact ⟨entriesLong_take 5 h1, entriesLong_take 5 h2, h3, h4, h5, h6, h7, h8, h9, h10, h11, h12⟩

theorem totalEntries_post (r : CompResult) : totalEntries (postResult r) ≤ totalEntries r := by
  unfold totalEntries postResult postProd
  simp [List.length_take]
  omega

theorem goodRes_empty : goodRes emptyResult := by
  refine ⟨?_, ?_, ?_, ?_, ?_, ?_, ?_, ?_, ?_, ?_, ?_, ?_⟩
  all_goals intro e he
  all_goals simp [emptyResult, emptyProdInfo, emptyVglInfo, emptyAllesInfo] at he

theorem extract_eq (responseText : JVal) (products : List Product)
    (h : ¬(jsFalsy responseText ∨ products.length < 2)) :
    extractStructuredComparison responseText products
      = postResult (((splitEq3 (narrativeText responseText).data).foldl
          (stepSection (jsToLower (products.getD 0 ⟨"", ""⟩).artikelname)
            (jsToLower (products.getD 1 ⟨"", ""⟩).artikelname)
            (jsToLower (products.getD 0 ⟨"", ""⟩).artikelnummer)
            (jsToLower (products.getD 1 ⟨"", ""⟩).artikelnummer))
          ⟨none, none, emptyResult⟩).res) := by
  unfold extractStructuredComparison
  rw [if_neg h]

/-- C7: every result of the structurer obeys the output bounds: short
descriptions at most 500 characters, recommendations at most 300, at most 5
use cases per product, every stored list entry longer than 10 characters,
and every string list bounded by the narrative's line count (the comparison
buckets are not truncated to a constant; they grow at most one entry per
processed line). -/
theorem C7_result_bounds (responseText : JVal) (products : List Product) :
    (extractStructuredComparison responseText products).produkt1.kurzbeschreibung.data.length ≤ 500 ∧
    (extractStructuredComparison responseText products).produkt2.kurzbeschreibung.data.length ≤ 500 ∧
    (extractStructuredComparison responseText products).produkt1.empfehlung.data.length ≤ 300 ∧
    (extractStructuredComparison responseText products).produkt2.empfehlung.data.length ≤ 300 ∧
    (extractStructuredComparison responseText products).produkt1.einsatzgebiete.length ≤ 5 ∧
    (extractStructuredComparison responseText products).produkt2.einsatzgebiete.length ≤ 5 ∧
    goodRes (extractStructuredComparison responseText products) ∧
    totalEntries (extractStructuredComparison responseText products)
      ≤ lineCount (narrativeText responseText).data := by
  by_cases h : jsFalsy responseText ∨ products.length < 2
  · have he : extractStructuredComparison responseText products = emptyResult := by
      unfold extractStructuredComparison
      rw [if_pos h]
    rw [he]
    refine ⟨by decide, by decide, by decide, by decide, by decide, by decide, goodRes_empty, ?_⟩
    rw [show totalEntries emptyResult = 0 from rfl]
    exact Nat.zero_le _
  · rw [extract_eq responseText products h]
    have hb := sectionsFold_bounds
      (jsToLower (products.getD 0 ⟨"", ""⟩).artikelname)
      (jsToLower (products.getD 1 ⟨"", ""⟩).artikelname)
      (jsToLower (products.getD 0 ⟨"", ""⟩).artikelnummer)
      (jsToLower (products.getD 1 ⟨"", ""⟩).artikelnummer)
      (splitEq3 (narrativeText responseText).data) ⟨none, none, emptyResult⟩ goodRes_empty
    refine ⟨postProd_kurz _, postProd_kurz _, postProd_empf _, postProd_empf _,
      postProd_einsatz_le _, postProd_einsatz_le _, goodRes_post hb.1, ?_⟩
    have h2 := hb.2
    rw [show totalEntries (SecState.mk none none emptyResult).res = 0 from rfl] at h2
    have h3 := totalEntries_post (((splitEq3 (narrativeText responseText).data).foldl
      (stepSection (jsToLower (products.getD 0 ⟨"", ""⟩).artikelname)
        (jsToLower (products.getD 1 ⟨"", ""⟩).artikelname)
        (jsToLower (products.getD 0 ⟨"", ""⟩).artikelnummer)
        (jsToLower (products.getD 1 ⟨"", ""⟩).artikelnummer))
      ⟨none, none, emptyResult⟩).res)
    unfold lineCount
    omega

end PChat
